import Mathlib

/-!
# NyxProxy — verification of the natural-language specification

A shallow embedding, in Lean 4, of the parts of the NyxProxy proxy fleet
manager that the specification claims describe: tag sanitization and country
matching (`core/utils/helpers.py`), cache age parsing and pruning
(`core/cache.py`), the URI parsers (`core/data/parser.py`), the two-phase
health checker (`core/services/testing.py`), bridge rotation
(`core/services/bridge_manager.py`) and the load-balancer connection
statistics (`core/services/load_balancer.py`).

Python strings are modelled over Lean `Char` lists with ASCII semantics for
the character classes used by the code (`\w`, `\s`, `\d`, `.lower()`,
`.upper()`, `.casefold()`); machine floats that only ever carry timestamps,
durations and pings are modelled as `ℚ`; Python `int` is modelled as `ℤ`
(or `ℕ` where the source value is always non-negative); exceptions are
modelled with `Except String`.  Effectful code is modelled as explicit
state passing, with external I/O (socket connects, subprocess launches,
HTTP probes, geo lookups, randomness) supplied by oracle records, and with
a ghost trace of emitted effects where a claim speaks about which external
calls happen.
-/

deriving instance DecidableEq for Except

namespace NyxProxy

/-! ## Python string primitives (ASCII model) -/

/-- Python `\s` (ASCII range): space, tab, newline, carriage return,
vertical tab, form feed. -/
def pyIsSpace (c : Char) : Bool :=
  c = ' ' || c = '\t' || c = '\n' || c = '\r' || c = '\x0b' || c = '\x0c'

/-- Python `\w` (ASCII range): alphanumeric or underscore. -/
def pyIsWordChar (c : Char) : Bool :=
  c.isAlphanum || c = '_'

/-- Python `str.strip()` on a character list. -/
def pyStripList (l : List Char) : List Char :=
  ((l.dropWhile pyIsSpace).reverse.dropWhile pyIsSpace).reverse

/-- Python `str.strip()` on a string. -/
def pyStrip (s : String) : String :=
  String.mk (pyStripList s.data)

/-- Python `str.casefold()` (ASCII model: lower-casing). -/
def pyCasefold (s : String) : String :=
  String.mk (s.data.map Char.toLower)

/-- A single-quote character as a string (for building quoted messages). -/
def sq : String :=
  String.singleton (Char.ofNat 39)

/-! ## `_sanitize_tag` (`core/utils/helpers.py`)

```python
if not tag or not tag.strip():
    return fallback
safe_tag = re.sub(r"[^\w\-\. ]+", "", tag).strip()
safe_tag = re.sub(r"\s+", "_", safe_tag)
return safe_tag[:48] or fallback
```
-/

/-- The character class kept by `re.sub(r"[^\w\-\. ]+", "", tag)`. -/
def keptTagChar (c : Char) : Bool :=
  pyIsWordChar c || c = '-' || c = '.' || c = ' '

/-- `re.sub(r"\s+", "_", s)`: every maximal run of whitespace becomes one
underscore. -/
def collapseSpaces : List Char → List Char
  | [] => []
  | c :: rest =>
    if pyIsSpace c then
      match rest with
      | [] => ['_']
      | d :: _ => if pyIsSpace d then collapseSpaces rest else '_' :: collapseSpaces rest
    else c :: collapseSpaces rest

/-- `_sanitize_tag(tag, fallback)`. -/
def sanitizeTag (tag : Option String) (fallback : String) : String :=
  match tag with
  | none => fallback
  | some t =>
    if (pyStripList t.data).isEmpty then fallback
    else
      let cleaned := t.data.filter keptTagChar
      let stripped := pyStripList cleaned
      let collapsed := collapseSpaces stripped
      let truncated := collapsed.take 48
      if truncated.isEmpty then fallback else String.mk truncated

/-! ## `GeoInfo` and country matching (`core/models.py`, `core/utils/helpers.py`) -/

structure GeoInfo where
  ip : String
  countryCode : Option String := none
  countryName : Option String := none
  isLoading : Bool := false
deriving Repr, DecidableEq

/-- Python truthiness of an optional string: present and non-empty. -/
def truthyStr : Option String → Option String
  | none => none
  | some s => if s.isEmpty then none else some s

/-- `GeoInfo.label`: `country_name`, else `country_code`, else a loading or
unknown placeholder. -/
def geoLabel (g : GeoInfo) : String :=
  match truthyStr g.countryName with
  | some n => n
  | none =>
    match truthyStr g.countryCode with
    | some c => c
    | none => if g.isLoading then "Loading..." else "Unknown"

/-- `_check_country_match(geo_info, desired)` applied to a `GeoInfo.__dict__`.
The `label` property of the dataclass is not a `__dict__` key, so only
`country_code` and `country_name` contribute candidate strings; empty and
`"-"` candidates are discarded. -/
def checkCountryMatch (geo : GeoInfo) (desired : String) : Bool :=
  let desiredNorm := pyCasefold (pyStrip desired)
  if desiredNorm.isEmpty then true
  else
    let cands := ([geo.countryCode, geo.countryName].filterMap id).map
      (fun s => pyCasefold (pyStrip s))
    (cands.filter (fun c => !(c = "" || c = "-"))).any (fun c => desiredNorm = c)

/-- `TestResult` (`core/models.py`): per-proxy health check state. -/
structure TestResult where
  uri : String
  tag : String := ""
  protocol : String := ""
  host : String := ""
  port : Nat := 0
  status : String := "PENDING"
  ping : Option ℚ := none
  error : Option String := none
  serverGeo : Option GeoInfo := none
  exitGeo : Option GeoInfo := none
  testedAtTs : Option ℚ := none
deriving Repr, DecidableEq

/-- `matches_country(entry, desired)`: the effective geo is
`exit_geo or server_geo`; no geo means no match; `desired` absent or empty
matches everything. -/
def matchesCountry (entry : TestResult) (desired : Option String) : Bool :=
  match desired with
  | none => true
  | some d =>
    if d.isEmpty then true
    else
      match entry.exitGeo <|> entry.serverGeo with
      | none => false
      | some g => checkCountryMatch g d

/-! ## `_parse_age_str` and cache pruning (`core/cache.py`)

```python
if not age_str:
    raise ValueError(...)
units = \x7b 'H': 3600, 'D': 86400, 'S': 604800 \x7d
parts = [p.strip().upper() for p in age_str.split(',')]
for part in parts:
    if not part: continue
    match = re.match(r'^(\d+)([HDS])$', part)
    if not match: raise ValueError(...)
    value = int(match.group(1)); unit = match.group(2)
    if value <= 0: raise ValueError(...)
    durations_in_seconds.append(value * units[unit])
if not durations_in_seconds: raise ValueError(...)
return sum(durations_in_seconds)
```
Error messages are abbreviated English renderings of the Portuguese
originals; no claim depends on their text. -/

/-- The unit table: hours, days and weeks — note the week unit is the
letter `S` (semanas), not `W`. -/
def unitSecs (c : Char) : Option Nat :=
  if c = 'H' then some 3600
  else if c = 'D' then some 86400
  else if c = 'S' then some 604800
  else none

/-- Decimal value of a digit list, as computed by Python `int` on a digit
string. -/
def digitsVal (ds : List Char) : Nat :=
  ds.foldl (fun a c => a * 10 + (c.toNat - 48)) 0

/-- Python `str.split(',')` on a character list (`"".split(',') == [""]`). -/
def splitOnComma : List Char → List (List Char)
  | [] => [[]]
  | c :: rest =>
    let r := splitOnComma rest
    if c = ',' then [] :: r
    else
      match r with
      | [] => [[c]]
      | h :: t => (c :: h) :: t

/-- `re.match(r'^(\d+)([HDS])$', part)`: the matched value together with the
seconds of the unit letter. -/
def agePartMatch (p : List Char) : Option (Nat × Nat) :=
  match p.getLast? with
  | none => none
  | some u =>
    match unitSecs u with
    | none => none
    | some secs =>
      let ds := p.dropLast
      if !ds.isEmpty && ds.all Char.isDigit then some (digitsVal ds, secs) else none

/-- The per-part loop: empty parts are skipped, a malformed or non-positive
part raises, and each valid part contributes `value * unit` seconds. -/
def parseAgeParts : List (List Char) → Except String (List Nat)
  | [] => Except.ok []
  | p :: rest =>
    if p.isEmpty then parseAgeParts rest
    else
      match agePartMatch p with
      | none => Except.error "invalid time format"
      | some (v, secs) =>
        if v = 0 then Except.error "time value must be positive"
        else (parseAgeParts rest).map (fun l => v * secs :: l)

/-- `_parse_age_str(age_str)`: total duration in seconds (the sum of all
parts), or an error. -/
def parseAgeStr (ageStr : String) : Except String Nat :=
  if ageStr.data.isEmpty then Except.error "empty age string"
  else
    let parts := (splitOnComma ageStr.data).map (fun p => (pyStripList p).map Char.toUpper)
    match parseAgeParts parts with
    | Except.error e => Except.error e
    | Except.ok l =>
      if l.isEmpty then Except.error "no valid time criteria" else Except.ok l.sum

/-- Join character lists with commas (the shape of a comma-joined age
expression; inverse of `splitOnComma` on comma-free parts). -/
def joinComma : List (List Char) → List Char
  | [] => []
  | [p] => p
  | p :: q :: rest => p ++ ',' :: joinComma (q :: rest)

/-- A persisted cache entry, restricted to the fields that age-based pruning
reads (`uri`, `status`, the numeric `tested_at_ts`). -/
structure CacheEntry where
  uri : String
  status : String
  testedAtTs : Option ℚ
deriving Repr, DecidableEq

/-- The partial-clean path of `clear_cache(age_str)`: parse the age, compute
`threshold_ts = now - total_duration_sec`, and keep exactly the entries whose
numeric timestamp is strictly newer than the threshold (entries without a
numeric timestamp are treated as old and removed). -/
def clearCachePrune (entries : List CacheEntry) (ageStr : String) (now : ℚ) :
    Except String (List CacheEntry) :=
  match parseAgeStr ageStr with
  | Except.error e => Except.error e
  | Except.ok totalDurationSec =>
    let thresholdTs : ℚ := now - (totalDurationSec : ℚ)
    Except.ok (entries.filter (fun e =>
      match e.testedAtTs with
      | some t => decide (t > thresholdTs)
      | none => false))

/-! ## URI parsing (`core/data/parser.py`, helpers from `core/utils/helpers.py`)

The parsed `Outbound` (`core/models.py`) restricted to its scalar fields;
the nested engine `config` is rendered from the same `(tag, protocol, host,
port, credentials)` data and is treated as opaque here. `port` is a Python
`int`, hence `ℤ`. -/

structure Outbound where
  tag : String
  protocol : String
  host : String
  port : Int
deriving Repr, DecidableEq

/-- Value of one base64-alphabet character. -/
def b64CharVal (c : Char) : Option Nat :=
  if 'A' ≤ c && c ≤ 'Z' then some (c.toNat - 65)
  else if 'a' ≤ c && c ≤ 'z' then some (c.toNat - 97 + 26)
  else if '0' ≤ c && c ≤ '9' then some (c.toNat - 48 + 52)
  else if c = '+' then some 62
  else if c = '/' then some 63
  else none

/-- Decode a list of 6-bit values into bytes, groupwise, as
`binascii.a2b_base64` does: a trailing group of one value is invalid, of two
or three values yields one or two bytes. -/
def b64Groups : List Nat → Option (List Nat)
  | [] => some []
  | [_] => none
  | [a, b] => some [a * 4 + b / 16]
  | [a, b, c] => some [a * 4 + b / 16, (b % 16) * 16 + c / 4]
  | a :: b :: c :: d :: rest =>
    (b64Groups rest).map
      (fun t => (a * 4 + b / 16) :: ((b % 16) * 16 + c / 4) :: ((c % 4) * 64 + d) :: t)

/-- `_b64decode_padded(value)`: strip, map URL-safe `-`/`_` to `+`/`/`, pad
with `=` to a multiple of four, then decode (non-alphabet characters are
discarded, data after the first `=` is ignored). -/
def b64DecodePadded (s : String) : Option (List Nat) :=
  let v0 := (pyStripList s.data).map
    (fun c => if c = '-' then '+' else if c = '_' then '/' else c)
  let v := v0 ++ List.replicate ((4 - v0.length % 4) % 4) '='
  let kept := v.filter (fun c => (b64CharVal c).isSome || c = '=')
  let dataChars := kept.takeWhile (fun c => !(c = '='))
  b64Groups (dataChars.filterMap b64CharVal)

/-- Is a byte a UTF-8 continuation byte? -/
def utf8Cont (b : Nat) : Bool :=
  0x80 ≤ b && b < 0xC0

/-- Strict UTF-8 decoding of a byte list (rejecting overlong forms,
surrogates and out-of-range code points, as Python `bytes.decode("utf-8")`
does). -/
def utf8Decode : List Nat → Option (List Char)
  | [] => some []
  | b :: rest =>
    if b < 0x80 then
      (utf8Decode rest).map (fun cs => Char.ofNat b :: cs)
    else if 0xC2 ≤ b && b < 0xE0 then
      match rest with
      | b2 :: r2 =>
        if utf8Cont b2 then
          (utf8Decode r2).map (fun cs => Char.ofNat ((b - 0xC0) * 64 + (b2 - 0x80)) :: cs)
        else none
      | [] => none
    else if 0xE0 ≤ b && b < 0xF0 then
      match rest with
      | b2 :: b3 :: r2 =>
        if utf8Cont b2 && utf8Cont b3 then
          let cp := (b - 0xE0) * 4096 + (b2 - 0x80) * 64 + (b3 - 0x80)
          if 0x800 ≤ cp && !(0xD800 ≤ cp && cp < 0xE000) then
            (utf8Decode r2).map (fun cs => Char.ofNat cp :: cs)
          else none
        else none
      | _ => none
    else if 0xF0 ≤ b && b < 0xF5 then
      match rest with
      | b2 :: b3 :: b4 :: r2 =>
        if utf8Cont b2 && utf8Cont b3 && utf8Cont b4 then
          let cp := (b - 0xF0) * 262144 + (b2 - 0x80) * 4096 + (b3 - 0x80) * 64 + (b4 - 0x80)
          if 0x10000 ≤ cp && cp ≤ 0x10FFFF then
            (utf8Decode r2).map (fun cs => Char.ofNat cp :: cs)
          else none
        else none
      | _ => none
    else none

/-- `_decode_bytes(data)`: UTF-8 when valid, otherwise the latin-1 fallback
(each byte becomes the code point of the same value). -/
def decodeBytes (bs : List Nat) : String :=
  match utf8Decode bs with
  | some cs => String.mk cs
  | none => String.mk (bs.map Char.ofNat)

/-- All splits of `l` at an occurrence of `sep`, in left-to-right position
order: `(before, after)` pairs, neither side containing that occurrence. -/
def splitsAtChar (sep : Char) : List Char → List (List Char × List Char)
  | [] => []
  | c :: rest =>
    let tailSplits := (splitsAtChar sep rest).map (fun pr => (c :: pr.1, pr.2))
    if c = sep then ([], rest) :: tailSplits else tailSplits

/-- `re.match(r"^(?P<method>.+?):(?P<password>.+?)@(?P<host>.+?):(?P<port>\d+)$", s)`
with backtracking lazy groups: the first split (scanning group boundaries
left to right, outermost first) into non-empty `method`, `password`, `host`
and a non-empty all-digit `port`. `.` does not match a newline. -/
def ssRegexMatch (s : List Char) :
    Option (List Char × List Char × List Char × List Char) :=
  if s.any (fun c => c = '\n') then none
  else
    (splitsAtChar ':' s).findSome? (fun mr =>
      if mr.1.isEmpty then none
      else
        (splitsAtChar '@' mr.2).findSome? (fun pr =>
          if pr.1.isEmpty then none
          else
            (splitsAtChar ':' pr.2).findSome? (fun hd =>
              if hd.1.isEmpty || hd.2.isEmpty || !hd.2.all Char.isDigit then none
              else some (mr.1, pr.1, hd.1, hd.2))))

/-- Is `c` an ASCII hex digit? -/
def isHexDigitChar (c : Char) : Bool :=
  c.isDigit || ('a' <= c && c <= 'f') || ('A' <= c && c <= 'F')

/-- Hex digit value. -/
def hexVal (c : Char) : Nat :=
  if c.isDigit then c.toNat - 48
  else if 'a' ≤ c && c ≤ 'f' then c.toNat - 97 + 10
  else if 'A' ≤ c && c ≤ 'F' then c.toNat - 65 + 10
  else 0

/-- `urllib.parse.unquote` (ASCII model): each `%XY` hex escape becomes the
character with that byte value. -/
def percentDecode : List Char → List Char
  | [] => []
  | '%' :: h1 :: h2 :: rest =>
    if isHexDigitChar h1 && isHexDigitChar h2 then
      Char.ofNat (16 * hexVal h1 + hexVal h2) :: percentDecode rest
    else '%' :: percentDecode (h1 :: h2 :: rest)
  | c :: rest => c :: percentDecode rest

/-- The fragment of a URI: the part after the first `#`, or `None` when
absent (`urlparse(...).fragment`, with Python's empty-string falsiness
folded in by the callers). -/
def uriFragment (l : List Char) : Option (List Char) :=
  if l.any (fun c => c = '#') then some ((l.dropWhile (fun c => !(c = '#'))).drop 1)
  else none

/-- The part of a URI before any `#` fragment. -/
def uriBeforeFragment (l : List Char) : List Char :=
  l.takeWhile (fun c => !(c = '#'))

/-- `_parse_ss(uri)`: tag from the (unquoted) fragment, base64-decode
`netloc + path`, match the `method:password@host:port` shape, build a
Shadowsocks outbound. No range check is applied to the port. -/
def parseSS (uri : String) : Except String Outbound :=
  let afterScheme := uri.data.drop 5
  let tag := sanitizeTag
    ((uriFragment afterScheme).bind (fun f =>
      if f.isEmpty then none else some (String.mk (percentDecode f)))) "ss"
  let encodedPart := (uriBeforeFragment afterScheme).takeWhile (fun c => !(c = '?'))
  if encodedPart.isEmpty then Except.error "ss link is empty or malformed"
  else
    match b64DecodePadded (String.mk encodedPart) with
    | none => Except.error "failed to decode base64 from ss"
    | some bytes =>
      let decodedText := decodeBytes bytes
      match ssRegexMatch decodedText.data with
      | none => Except.error "invalid decoded ss format"
      | some (_method, _password, host, portDigits) =>
        Except.ok
          { tag := tag, protocol := "shadowsocks", host := String.mk host,
            port := (digitsVal portDigits : Int) }

/-- A decoded JSON scalar, as found in a `vmess://` payload dictionary. -/
inductive JVal where
  | s (v : String)
  | n (v : Int)
  | b (v : Bool)
  | nullv
deriving Repr, DecidableEq

/-- Python truthiness of a decoded JSON scalar. -/
def jTruthy : JVal → Bool
  | JVal.s v => !v.isEmpty
  | JVal.n v => !(v = 0)
  | JVal.b v => v
  | JVal.nullv => false

/-- `str(value)` for a decoded JSON scalar. -/
def jToStr : JVal → String
  | JVal.s v => v
  | JVal.n v => toString v
  | JVal.b v => if v then "True" else "False"
  | JVal.nullv => "None"

/-- Dictionary lookup (`data.get(key)`). -/
def dictGet (d : List (String × JVal)) (k : String) : Option JVal :=
  (d.find? (fun kv => kv.1 = k)).map (fun kv => kv.2)

/-- Python `int(s)` on a stripped string: optional sign followed by digits. -/
def pyIntParse (s : String) : Option Int :=
  match pyStripList s.data with
  | '-' :: ds => if !ds.isEmpty && ds.all Char.isDigit then some (-(digitsVal ds : Int)) else none
  | '+' :: ds => if !ds.isEmpty && ds.all Char.isDigit then some ((digitsVal ds : Int)) else none
  | ds => if !ds.isEmpty && ds.all Char.isDigit then some ((digitsVal ds : Int)) else none

/-- `_safe_int(value)`: an `int` (or `bool`) is returned as-is, anything
else goes through `int(str(value).strip())`, with `None` on failure. -/
def safeIntJ : JVal → Option Int
  | JVal.n v => some v
  | JVal.b v => some (if v then 1 else 0)
  | v => pyIntParse (jToStr v)

/-- `_vmess_outbound_from_dict(data)`: requires truthy `add`, `port`, `id`;
the port is `_safe_int(port_raw)` with no range check. A non-string `ps`
value (which would make `_sanitize_tag` raise in the source) is modelled as
an absent tag. -/
def vmessOutboundFromDict (d : List (String × JVal)) (tagFallback : String := "vmess") :
    Except String Outbound :=
  let host := dictGet d "add"
  let portRaw := dictGet d "port"
  let uuid := dictGet d "id"
  if !((host.map jTruthy).getD false && (portRaw.map jTruthy).getD false
       && (uuid.map jTruthy).getD false) then
    Except.error "incomplete vmess data"
  else
    match portRaw.bind safeIntJ with
    | none => Except.error "invalid vmess port"
    | some port =>
      let ps := match dictGet d "ps" with
        | some (JVal.s v) => some v
        | _ => none
      let tag := sanitizeTag ps tagFallback
      Except.ok
        { tag := tag, protocol := "vmess",
          host := (host.map jToStr).getD "", port := port }

/-! ### `vless://` and `trojan://` (standard URL grammar with the manual
unbracketed-IPv6 fallback)

`urllib.parse.urlparse` is modelled for the shapes these parsers consume:
the authority (`netloc`) is the text between `scheme://` and the first of
`/`, `?`, `#`; `username` is the userinfo before the last `@` (up to its
first `:`); `hostname` is lower-cased, with brackets stripped for `[...]`
authorities; `.port` parses the text after the first `:` of the host
information (after `]` for bracketed hosts), raising a cast error on
non-digits and a range error outside `0..65535`. -/

inductive PortParse where
  | noPort
  | port (p : Int)
  | castErr
  | rangeErr
deriving Repr, DecidableEq

/-- The authority component of a URI, given everything after `scheme://`. -/
def uriAuthority (afterScheme : List Char) : List Char :=
  afterScheme.takeWhile (fun c => !(c = '/' || c = '?' || c = '#'))

/-- Split at the last occurrence of `sep`: `(some before, after)` when
present, `(none, l)` otherwise. -/
def rpartitionChar (sep : Char) (l : List Char) : Option (List Char) × List Char :=
  match (splitsAtChar sep l).getLast? with
  | some pr => (some pr.1, pr.2)
  | none => (none, l)

/-- Split at the first occurrence of `sep`. -/
def lpartitionChar (sep : Char) (l : List Char) : Option (List Char) × List Char :=
  match splitsAtChar sep l with
  | pr :: _ => (some pr.1, pr.2)
  | [] => (none, l)

/-- Parse a port string the way the `.port` property does: empty means no
port, non-integer text is a cast error, an integer outside `0..65535` is a
range error. -/
def portStrParse (portStr : List Char) : PortParse :=
  if portStr.isEmpty then PortParse.noPort
  else
    match pyIntParse (String.mk portStr) with
    | none => PortParse.castErr
    | some p => if 0 ≤ p && p ≤ 65535 then PortParse.port p else PortParse.rangeErr

/-- `urlparse(...).port` (with `.hostname`): hostname text and the port
parse outcome for a host-information string. -/
def hostinfoParse (hostinfo : List Char) : List Char × PortParse :=
  if hostinfo.any (fun c => c = '[') then
    let inner := ((hostinfo.dropWhile (fun c => !(c = '['))).drop 1).takeWhile
      (fun c => !(c = ']'))
    let afterBracket := (hostinfo.dropWhile (fun c => !(c = ']'))).drop 1
    let portStr := match lpartitionChar ':' afterBracket with
      | (some _, after) => after
      | (none, _) => []
    (inner.map Char.toLower, portStrParse portStr)
  else
    match lpartitionChar ':' hostinfo with
    | (some before, after) => (before.map Char.toLower, portStrParse after)
    | (none, _) => (hostinfo.map Char.toLower, PortParse.noPort)


/-- The userinfo-derived `username`: text before the first `:` of the
userinfo. -/
def userinfoName (userinfo : List Char) : List Char :=
  match lpartitionChar ':' userinfo with
  | (some before, _) => before
  | (none, _) => userinfo

/-- `if not all((user, host, port))`: user and host must be non-empty, port
non-zero. -/
def checkAllTruthy (user host : List Char) (port : Int) :
    Except String (List Char × List Char × Int) :=
  if user.isEmpty || host.isEmpty || port = 0 then Except.error "incomplete link"
  else Except.ok (user, host, port)

/-- Common body of `_parse_vless` / `_parse_trojan`: extract
`(userpart, host, port)` from everything after `scheme://`, including the
manual `rsplit` fallback for unbracketed IPv6 authorities (triggered only
by a port *cast* error; a *range* error is re-raised as a parse error). -/
def vlessHostPort (afterScheme : List Char) :
    Except String (List Char × List Char × Int) :=
  let netloc := uriAuthority afterScheme
  let (userinfo, hostinfo) := rpartitionChar '@' netloc
  let user0 := (userinfo.map userinfoName).getD []
  let (hostname, portParse) := hostinfoParse hostinfo
  match portParse with
  | PortParse.rangeErr => Except.error "error parsing port"
  | PortParse.castErr =>
    -- manual fallback: rsplit('@', 1) then rsplit(':', 1) on the raw netloc
    let (fbUser, authority) := rpartitionChar '@' netloc
    let userFb := match fbUser with
      | some u => percentDecode u
      | none => user0
    (match rpartitionChar ':' authority with
     | (some hostPart, portStr) =>
       match pyIntParse (String.mk portStr) with
       | some p => checkAllTruthy userFb hostPart p
       | none => Except.error "invalid port after manual parse"
     | (none, _) => Except.error "no port found in URI")
  | PortParse.noPort => Except.error "incomplete link"
  | PortParse.port p => checkAllTruthy user0 hostname p


/-- `_parse_vless(uri)` restricted to the `Outbound` scalar fields. -/
def parseVless (uri : String) : Except String Outbound :=
  let afterScheme := uri.data.drop 8
  match vlessHostPort (uriBeforeFragment afterScheme) with
  | Except.error e => Except.error e
  | Except.ok (_uuid, host, port) =>
    let tag := sanitizeTag
      ((uriFragment afterScheme).bind (fun f =>
        if f.isEmpty then none else some (String.mk (percentDecode f)))) "vless"
    Except.ok { tag := tag, protocol := "vless", host := String.mk host, port := port }

/-- `_parse_trojan(uri)` restricted to the `Outbound` scalar fields. -/
def parseTrojan (uri : String) : Except String Outbound :=
  let afterScheme := uri.data.drop 9
  match vlessHostPort (uriBeforeFragment afterScheme) with
  | Except.error e => Except.error e
  | Except.ok (_password, host, port) =>
    let tag := sanitizeTag
      ((uriFragment afterScheme).bind (fun f =>
        if f.isEmpty then none else some (String.mk (percentDecode f)))) "trojan"
    Except.ok { tag := tag, protocol := "trojan", host := String.mk host, port := port }

/-! ## Two-phase health checker (`core/services/testing.py`)

`_perform_health_checks` is embedded as a deterministic function over the
manager state, with the external world supplied by a `ProbeOracle` and a
ghost trace of the external calls it performs.  The embedding fixes the
sequential completion schedule (tasks complete in submission order); the
claims settled against it are order-independent per-entry and counting
properties.  Entries are paired with their index in `self._entries`, which
models Python object identity across the phases. -/

/-- Outcome of `_test_proxy_functionality` for one outbound. -/
inductive FuncOutcome where
  | functional (responseTime : ℚ) (externalIp : Option String)
  | notFunctional (err : String)
deriving Repr, DecidableEq

/-- The external world of one health-check run. -/
structure ProbeOracle where
  /-- `_test_socket_connection(host, port, ...)` outcome. -/
  socketOk : String → Nat → Bool
  /-- `_test_proxy_functionality` outcome for a given proxy URI. -/
  funcTest : String → FuncOutcome
  /-- DNS + `_lookup_geo_info` for the server host. -/
  serverGeoLookup : String → Option GeoInfo
  /-- `_lookup_geo_info` for an exit IP (`_post_load_exit_geo`). -/
  exitGeoLookup : String → Option GeoInfo

/-- Ghost trace of the externally visible calls of a health-check run. -/
inductive TEvent where
  /-- `asyncio.Semaphore(capacity)` creation for phase 1 or 2. -/
  | semCreate (phase : Nat) (capacity : Nat)
  /-- A TCP connect attempt for the entry with the given uri. -/
  | socketAttempt (uri : String) (host : String) (port : Nat) (timeout : ℚ)
  /-- A functional probe through a temporary bridge. -/
  | funcProbe (uri : String) (timeout : ℚ)
  /-- A progress emission (`cached` marks a cache-served report). -/
  | progress (uri : String) (cached : Bool)
  /-- `_save_cache()`. -/
  | cacheSave
  /-- `_save_geo_cache()`. -/
  | geoCacheSave
deriving Repr, DecidableEq

/-- The manager state that `_perform_health_checks` reads and writes. -/
structure HCState where
  entries : List TestResult
  /-- Keys of `self._outbounds`. -/
  outboundUris : List String := []
  useCache : Bool := false
  /-- Keys of `self._cache_entries`. -/
  cacheUris : List String := []
  /-- Is `self._findip_token` set (gates `_post_load_exit_geo`)? -/
  findipToken : Bool := false
deriving Repr, DecidableEq

/-- The keyword arguments of `_perform_health_checks`, plus the test clock. -/
structure HCParams where
  countryFilter : Option String := none
  emitProgress : Bool := false
  forceRefresh : Bool := false
  timeout : ℚ := 5
  threads : Nat := 1
  stopOnSuccess : Option Nat := none
  skipGeo : Bool := false
  now : ℚ := 0
deriving Repr, DecidableEq

/-- Is the country filter truthy (`if country_filter ...`)? -/
def cfActive (cf : Option String) : Bool :=
  match cf with
  | some s => !s.isEmpty
  | none => false

/-- The re-tag message `f"Does not match filter '\x7bcountry_filter\x7d'"`. -/
def filterRetagMsg (f : String) : String :=
  "Does not match filter " ++ sq ++ f ++ sq

/-- `if stop_on_success and success_count >= stop_on_success`. -/
def stopReached (stopOnSuccess : Option Nat) (successCount : Nat) : Bool :=
  match stopOnSuccess with
  | some n => !(n = 0) && n ≤ successCount
  | none => false

/-- Result of the initial cache scan of `_perform_health_checks`. -/
structure CacheScanOut where
  /-- Indexed entries that go to phase 1 (`to_test`), unchanged. -/
  toTest : List (Nat × TestResult)
  /-- Indexed final values of the cache-served entries. -/
  upds : List (Nat × TestResult)
  success : Nat
  tested : Nat
  events : List TEvent
deriving Repr, DecidableEq

/-- The cache re-check of one cache-served entry: an `OK` entry that fails
an active country filter is re-tagged `FILTERED`. -/
def cacheRecheck (cf : Option String) (e : TestResult) : TestResult × Bool :=
  if e.status = "OK" then
    if cfActive cf && !matchesCountry e cf then
      ({ e with status := "FILTERED", error := some (filterRetagMsg (cf.getD "")) }, false)
    else (e, true)
  else (e, false)

/-- The `for result in self._entries` cache loop: cache-served entries are
reported (and possibly re-tagged), the rest accumulate into `to_test`. -/
def cacheScanGo (useCache forceRefresh : Bool) (cacheUris : List String)
    (cf : Option String) (emitProgress : Bool) :
    List (Nat × TestResult) → CacheScanOut
  | [] => { toTest := [], upds := [], success := 0, tested := 0, events := [] }
  | (i, e) :: rest =>
    let out := cacheScanGo useCache forceRefresh cacheUris cf emitProgress rest
    let cached := useCache && cacheUris.contains e.uri
    if useCache && !forceRefresh && cached then
      let (e2, isOk) := cacheRecheck cf e
      { toTest := out.toTest,
        upds := (i, e2) :: out.upds,
        success := (if isOk then 1 else 0) + out.success,
        tested := 1 + out.tested,
        events := (if emitProgress then [TEvent.progress e.uri true] else []) ++ out.events }
    else
      { out with toTest := (i, e) :: out.toTest }

/-- Result of the phase-1 socket screen. -/
structure ScreenOut where
  /-- Indexed survivors (`online_proxies`), unchanged. -/
  online : List (Nat × TestResult)
  /-- Indexed final values of all screened entries. -/
  upds : List (Nat × TestResult)
  tested : Nat
  events : List TEvent
deriving Repr, DecidableEq

/-- The phase-1 marking of an offline candidate. -/
def phase1FailEntry (now : ℚ) (e : TestResult) : TestResult :=
  { e with status := "ERROR", error := some "Connection refused (Phase 1)",
           testedAtTs := some now }

/-- The screening loop of `_socket_screening_phase`: each candidate gets a
TCP connect attempt with a 1.0 s timeout; offline candidates are marked and
reported, online ones survive untouched. -/
def screenGo (o : ProbeOracle) (now : ℚ) (emitProgress : Bool) :
    List (Nat × TestResult) → ScreenOut
  | [] => { online := [], upds := [], tested := 0, events := [] }
  | (i, e) :: rest =>
    let out := screenGo o now emitProgress rest
    let ev := TEvent.socketAttempt e.uri e.host e.port 1
    if o.socketOk e.host e.port then
      { online := (i, e) :: out.online, upds := (i, e) :: out.upds,
        tested := out.tested, events := ev :: out.events }
    else
      { online := out.online, upds := (i, phase1FailEntry now e) :: out.upds,
        tested := 1 + out.tested,
        events := ev :: ((if emitProgress then [TEvent.progress e.uri false] else [])
          ++ out.events) }

/-- `_socket_screening_phase(entries, threads, ...)`: create the semaphore
with the supplied capacity and screen every candidate. -/
def socketScreeningPhase (o : ProbeOracle) (entries : List (Nat × TestResult))
    (threads : Nat) (now : ℚ) (emitProgress : Bool) : ScreenOut :=
  let out := screenGo o now emitProgress entries
  { out with events := TEvent.semCreate 1 threads :: out.events }

/-- `_test_outbound_functional_only(result, timeout, skip_geo)`: run the
functional probe and update the result in place. -/
def testOutboundFunctionalOnly (o : ProbeOracle) (e : TestResult)
    (timeout : ℚ) (skipGeo : Bool) (now : ℚ) : TestResult × List TEvent :=
  match o.funcTest e.uri with
  | FuncOutcome.functional responseTime externalIp =>
    let e1 := { e with status := "OK", ping := some responseTime }
    let e2 := match externalIp with
      | some ip =>
        if !ip.isEmpty && !skipGeo then
          { e1 with exitGeo := some { ip := ip, isLoading := true } }
        else e1
      | none => e1
    let e3 := if e2.serverGeo.isNone then { e2 with serverGeo := o.serverGeoLookup e.host }
      else e2
    ({ e3 with testedAtTs := some now }, [TEvent.funcProbe e.uri timeout])
  | FuncOutcome.notFunctional err =>
    ({ e with status := "ERROR", error := some err, testedAtTs := some now },
      [TEvent.funcProbe e.uri timeout])

/-- One phase-2 task body (`run_functional_test` minus the counter and
cancellation bookkeeping): probe, then apply the country filter re-tag. -/
def phase2Entry (o : ProbeOracle) (p : HCParams) (e : TestResult) : TestResult :=
  let e1 := (testOutboundFunctionalOnly o e p.timeout p.skipGeo p.now).1
  if e1.status = "OK" && cfActive p.countryFilter
      && !matchesCountry e1 p.countryFilter then
    { e1 with status := "FILTERED",
              error := some (filterRetagMsg (p.countryFilter.getD "")) }
  else e1

/-- Result of the phase-2 functional loop. -/
structure Phase2Out where
  /-- Indexed final values of the entries whose task ran to completion. -/
  processed : List (Nat × TestResult)
  /-- Indexed entries whose task was cancelled before running (unchanged). -/
  cancelledRest : List (Nat × TestResult)
  success : Nat
  tested : Nat
  events : List TEvent
  cancelled : Bool
deriving Repr, DecidableEq

/-- The phase-2 loop over the survivors, with the early-stop cancellation:
once `success_count` reaches `stop_on_success`, the remaining tasks are
cancelled and their entries stay untouched. -/
def runFunctionalGo (o : ProbeOracle) (p : HCParams) :
    List (Nat × TestResult) → Nat → Nat → Bool → Phase2Out
  | [], success, tested, cancelled =>
    { processed := [], cancelledRest := [], success := success, tested := tested,
      events := [], cancelled := cancelled }
  | (i, e) :: rest, success, tested, cancelled =>
    if cancelled then
      let out := runFunctionalGo o p rest success tested cancelled
      { out with cancelledRest := (i, e) :: out.cancelledRest }
    else
      let e2 := phase2Entry o p e
      let tested1 := tested + 1
      let evs2 := if p.emitProgress then [TEvent.progress e2.uri false] else []
      let success1 := if e2.status = "OK" then success + 1 else success
      let cancelled1 := if e2.status = "OK" then stopReached p.stopOnSuccess success1
        else cancelled
      let out := runFunctionalGo o p rest success1 tested1 cancelled1
      { out with processed := (i, e2) :: out.processed,
                 events := TEvent.funcProbe e.uri p.timeout :: (evs2 ++ out.events) }

/-- `_post_load_exit_geo`: patch the exit geo of `OK` results whose exit IP
has no country code yet (only when a findip token is configured). -/
def postLoadExitGeo (o : ProbeOracle) (findipToken : Bool) (e : TestResult) : TestResult :=
  if !findipToken then e
  else
    match e.exitGeo with
    | some g =>
      if e.status = "OK" && !g.ip.isEmpty && g.countryCode.isNone then
        match o.exitGeoLookup g.ip with
        | some g2 => { e with exitGeo := some g2 }
        | none => { e with exitGeo := some { g with isLoading := false } }
      else e
    | none => e

/-- Pick the final value of each original entry slot from the indexed
updates (Python mutates the shared `TestResult` objects; slots without an
update keep their value). -/
def mergeByIdx (orig : List TestResult) (upds : List (Nat × TestResult)) :
    List TestResult :=
  orig.enum.map (fun p =>
    match upds.find? (fun q => q.1 = p.1) with
    | some q => q.2
    | none => p.2)

/-- The result of a `_perform_health_checks` run. -/
structure HCOut where
  entries : List TestResult
  success : Nat
  tested : Nat
  events : List TEvent
deriving Repr, DecidableEq

/-- The end-of-run persistence events (`_save_cache` under `use_cache`,
then `_save_geo_cache`). -/
def saveEvents (useCache : Bool) : List TEvent :=
  (if useCache then [TEvent.cacheSave] else []) ++ [TEvent.geoCacheSave]

/-- The cache scan of a `_perform_health_checks` run. -/
def scanOf (st : HCState) (p : HCParams) : CacheScanOut :=
  cacheScanGo st.useCache p.forceRefresh st.cacheUris p.countryFilter
    p.emitProgress st.entries.enum

/-- The phase-1 socket screen of a `_perform_health_checks` run: note the
constant capacity 100, independent of `p.threads`. -/
def phase1Of (o : ProbeOracle) (st : HCState) (p : HCParams) : ScreenOut :=
  socketScreeningPhase o (scanOf st p).toTest 100 p.now p.emitProgress

/-- The phase-2 functional loop of a `_perform_health_checks` run. -/
def phase2Of (o : ProbeOracle) (st : HCState) (p : HCParams) : Phase2Out :=
  runFunctionalGo o p (phase1Of o st p).online (scanOf st p).success
    ((phase1Of o st p).tested + (scanOf st p).tested) false

/-- The indexed entry updates of a full two-phase run: cache-served
entries, phase-1 failures (survivor slots excluded), phase-2 results, and
the untouched entries of cancelled tasks. -/
def hcUpds (o : ProbeOracle) (st : HCState) (p : HCParams) : List (Nat × TestResult) :=
  (scanOf st p).upds
    ++ ((phase1Of o st p).upds.filter
        (fun q => !((phase1Of o st p).online.any (fun r => r.1 = q.1))))
    ++ (phase2Of o st p).processed ++ (phase2Of o st p).cancelledRest

/-- `_perform_health_checks(...)`: cache scan, early stop, phase-1 socket
screen with its constant capacity of 100, early stop again, phase-2
functional probes under the caller-supplied capacity, exit-geo enrichment,
persistence. -/
def performHealthChecks (o : ProbeOracle) (st : HCState) (p : HCParams) : HCOut :=
  let scan := scanOf st p
  if stopReached p.stopOnSuccess scan.success then
    { entries := mergeByIdx st.entries (scan.upds ++ scan.toTest),
      success := scan.success, tested := scan.tested,
      events := scan.events ++ (if st.useCache then [TEvent.cacheSave] else []) }
  else if scan.toTest.isEmpty then
    let merged := (mergeByIdx st.entries (scan.upds ++ scan.toTest)).map
      (fun e => if p.skipGeo then e else postLoadExitGeo o st.findipToken e)
    { entries := merged, success := scan.success, tested := scan.tested,
      events := scan.events ++ saveEvents st.useCache }
  else
    let p1 := phase1Of o st p
    if stopReached p.stopOnSuccess scan.success then
      { entries := mergeByIdx st.entries (scan.upds ++ p1.upds),
        success := scan.success, tested := p1.tested + scan.tested,
        events := scan.events ++ p1.events
          ++ (if st.useCache then [TEvent.cacheSave] else []) }
    else
      let p2 := phase2Of o st p
      let merged := (mergeByIdx st.entries (hcUpds o st p)).map
        (fun e => if p.skipGeo then e else postLoadExitGeo o st.findipToken e)
      { entries := merged, success := p2.success, tested := p2.tested,
        events := scan.events ++ p1.events
          ++ (if p1.online.isEmpty then [] else TEvent.semCreate 2 p.threads :: p2.events)
          ++ saveEvents st.useCache }

/-- `test(...)` (`TestingMixin.test`): raises `InsufficientProxiesError`
when no proxies are loaded, otherwise runs the health checks and returns
the updated entries. -/
def testMethod (o : ProbeOracle) (st : HCState) (p : HCParams) :
    Except String (List TestResult) :=
  if st.outboundUris.isEmpty then Except.error "No proxies loaded to test."
  else Except.ok (performHealthChecks o st p).entries

/-! ## Bridge manager (`core/services/bridge_manager.py`)

`BridgeRuntime` processes and temp directories are modelled by opaque
numeric identifiers; subprocess launches, `random.choice` and the
strategy-2 source reload (`add_sources` + `test`) are supplied by a
`RotateOracle`.  Rotation runs under `self._rotation_lock`, so it is
embedded as one sequential state transformation. -/

/-- `BridgeRuntime` (`core/models.py`). -/
structure BridgeRuntime where
  tag : String
  port : Nat
  uri : String
  process : Option Nat
  workdir : Option Nat
deriving Repr, DecidableEq

/-- The manager state read and written by `rotate_proxy` and
`_prepare_proxies_for_start`. -/
structure ManagerState where
  running : Bool := false
  bridges : List BridgeRuntime := []
  entries : List TestResult := []
  /-- `self._outbounds` as `uri → tag` (the other outbound fields do not
  feed the rotation logic). -/
  outbounds : List (String × String) := []
  usedProxiesQueue : List String := []
  countryFilter : Option String := none
  useCache : Bool := false
  /-- `self._cache_entries` as `uri → status`. -/
  cacheEntries : List (String × String) := []
  sources : List String := []
deriving Repr, DecidableEq

/-- The external world of one rotation. -/
structure RotateOracle where
  /-- `random.choice` over the candidate list, as an index. -/
  choice : Nat := 0
  /-- `self._entries` after the strategy-2 `add_sources` + `test` reload. -/
  refreshedEntries : List TestResult := []
  /-- `self._outbounds` after the strategy-2 reload. -/
  refreshedOutbounds : List (String × String) := []
  /-- Did `_wait_for_port` open after relaunching on the preserved port? -/
  launchOk : Bool := true
  newProc : Nat := 0
  newWorkdir : Nat := 0
deriving Repr, DecidableEq

/-- Ghost trace of a rotation. -/
inductive REvent where
  /-- The candidate chosen by `random.choice`, with the `used_uris` set and
  the used-proxies queue as they stood at the instant of selection. -/
  | selectedCandidate (uri : String) (usedUris : List String) (queueSnapshot : List String)
  | terminatedOld (process : Option Nat)
  | launchedNew (port : Nat)
  | clearedQueue
  | refreshedFromSources
deriving Repr, DecidableEq

/-- `f"\x7bentry.host\x7d:\x7bentry.port\x7d"` when host and port are
truthy. -/
def destinationOf (e : TestResult) : Option String :=
  if !e.host.isEmpty && !(e.port = 0) then some (e.host ++ ":" ++ toString e.port)
  else none

/-- `\x7be.uri: e for e in self._entries\x7d` lookup: the last entry with
the given uri wins. -/
def entryMapGet (entries : List TestResult) (uri : String) : Option TestResult :=
  entries.reverse.find? (fun e => e.uri = uri)

/-- `get_candidates()`: `OK` entries that match the country filter, whose
uri is not in `used_uris` and whose destination is not already in use. -/
def getCandidates (entries : List TestResult) (cf : Option String)
    (usedUris : List String) (usedDestinations : List String) : List TestResult :=
  entries.filter (fun e =>
    e.status = "OK" && matchesCountry e cf && !usedUris.contains e.uri
      && (match destinationOf e with
          | some d => !usedDestinations.contains d
          | none => true))

/-- Modelled from the spec: the UsedQueue is a bounded FIFO of capacity 100
(`collections.deque(maxlen=100)`); its construction site is not among the
sources, only its `append` in `rotate_proxy`.  Appending to a full queue
drops the oldest element. -/
def usedQueuePush (q : List String) (u : String) : List String :=
  let q2 := q ++ [u]
  q2.drop (q2.length - 100)

/-- The candidate-search part of `rotate_proxy` (initial `used_uris` /
`used_destinations`, `get_candidates`, strategy 2 — source reload — and
strategy 3 — queue clearing): produces the possibly-updated manager state,
the search trace, the final candidate list, and the `used_uris` set and
used-proxies queue as they stand at the instant of selection. -/
def rotateCandidateSearch (st : ManagerState) (o : RotateOracle) :
    ManagerState × List REvent × List TestResult × List String × List String :=
  let activeUris := st.bridges.map (fun b => b.uri)
  let usedUris0 := activeUris ++ st.usedProxiesQueue
  let usedDestinations := st.bridges.filterMap
    (fun b => (entryMapGet st.entries b.uri).bind destinationOf)
  let cands0 := getCandidates st.entries st.countryFilter usedUris0 usedDestinations
  -- strategy 1 (cache inspection) only prints; no state or candidate change
  let (st1, evs1, cands1) :=
    if cands0.isEmpty && !st.sources.isEmpty then
      let stR := { st with entries := o.refreshedEntries,
                           outbounds := o.refreshedOutbounds }
      (stR, [REvent.refreshedFromSources],
        getCandidates stR.entries st.countryFilter usedUris0 usedDestinations)
    else (st, [], cands0)
  -- strategy 3: clear the queue and recompute with only the active uris
  if cands1.isEmpty then
    let stC := { st1 with usedProxiesQueue := [] }
    (stC, evs1 ++ [REvent.clearedQueue],
      getCandidates stC.entries st.countryFilter activeUris usedDestinations,
      activeUris, ([] : List String))
  else (st1, evs1, cands1, usedUris0, st1.usedProxiesQueue)

/-- `rotate_proxy(bridge_id)` under the rotation lock: returns the success
flag, the updated manager state and the ghost trace. -/
def rotateProxy (st : ManagerState) (o : RotateOracle) (bridgeId : Nat) :
    Bool × ManagerState × List REvent :=
  if !st.running then (false, st, [])
  else
    match st.bridges.get? bridgeId with
    | none => (false, st, [])
    | some bridge =>
      let oldUri := bridge.uri
      match rotateCandidateSearch st o with
      | (st2, evsSel, cands2, usedUris2, queueSnap) =>
        match cands2.get? (o.choice % cands2.length) with
        | none => (false, st2, evsSel)
        | some newEntry =>
          let selEv := REvent.selectedCandidate newEntry.uri usedUris2 queueSnap
          match (st2.outbounds.find? (fun kv => kv.1 = newEntry.uri)).map (fun kv => kv.2) with
          | none => (false, st2, evsSel ++ [selEv])
          | some newTag =>
            let evs3 := evsSel ++ [selEv, REvent.terminatedOld bridge.process]
            if !o.launchOk then
              (false,
                { st2 with bridges := st2.bridges.set bridgeId { bridge with process := none } },
                evs3)
            else
              let newBridge : BridgeRuntime :=
                { tag := newTag, port := bridge.port, uri := newEntry.uri,
                  process := some o.newProc, workdir := some o.newWorkdir }
              (true,
                { st2 with bridges := st2.bridges.set bridgeId newBridge,
                           usedProxiesQueue := usedQueuePush st2.usedProxiesQueue oldUri },
                evs3 ++ [REvent.launchedNew bridge.port])

/-- `_prepare_proxies_for_start()`: on an empty proxy set, fall back to the
cache when possible (`loadedFromCache` models what
`_load_outbounds_from_cache` produces), otherwise raise
`InsufficientProxiesError`. -/
def prepareProxiesForStart (st : ManagerState)
    (loadedFromCache : List (String × String)) : Except String ManagerState :=
  if st.running then Except.error "Bridges are already running. Call stop first."
  else
    match (if st.outbounds.isEmpty then
        (if st.useCache && !st.cacheEntries.isEmpty then
          Except.ok { st with outbounds := loadedFromCache }
        else Except.error "No proxies loaded and the cache is empty.")
      else Except.ok st : Except String ManagerState) with
    | Except.error e => Except.error e
    | Except.ok st1 =>
      if st1.outbounds.isEmpty then
        Except.error "No valid proxies could be loaded to start."
      else Except.ok st1

/-! ## Load balancer statistics (`core/services/load_balancer.py`)

Connection accounting is embedded as a state machine: an `accept` event
performs the four increments at the top of `_handle_client` (lines 141-145),
a `finish` event performs the two decrements of its `finally` block (lines
201-204).  `_handle_client` itself is embedded as the per-connection event
trace it emits, parameterized by how the relaying ended. -/

structure BalancerStats where
  totalConnections : Nat := 0
  activeConnections : Int := 0
  connectionsPerBridge : Nat → Nat := fun _ => 0
  activePerBridge : Nat → Int := fun _ => 0

/-- A connection-accounting event, tagged with `bridge_idx`. -/
inductive ConnEvent where
  | accept (bridgeIdx : Nat)
  | finish (bridgeIdx : Nat)
deriving Repr, DecidableEq

/-- One accounting step. -/
def statsStep (s : BalancerStats) : ConnEvent → BalancerStats
  | ConnEvent.accept i =>
    { totalConnections := s.totalConnections + 1,
      activeConnections := s.activeConnections + 1,
      connectionsPerBridge := fun j =>
        if j = i then s.connectionsPerBridge j + 1 else s.connectionsPerBridge j,
      activePerBridge := fun j =>
        if j = i then s.activePerBridge j + 1 else s.activePerBridge j }
  | ConnEvent.finish i =>
    { s with
      activeConnections := s.activeConnections - 1,
      activePerBridge := fun j =>
        if j = i then s.activePerBridge j - 1 else s.activePerBridge j }

/-- The statistics after a sequence of accepts and completions, from a
freshly constructed balancer. -/
def statsRun (evs : List ConnEvent) : BalancerStats :=
  evs.foldl statsStep {}

/-- How the body of `_handle_client` ended after the accept-time
increments. -/
inductive RelayOutcome where
  /-- `asyncio.gather` of the two relay pumps returned (either side may
  have closed first; pump errors are returned, not raised). -/
  | pumpsDone
  /-- Connecting to the bridge (or creating the pumps) raised. -/
  | connectFailed
  /-- The handler task itself was cancelled. -/
  | handlerCancelled
deriving Repr, DecidableEq

/-- The accounting events emitted by one `_handle_client` call: nothing
when the balancer is stopped or no bridge is available; otherwise the
accept-time increments followed — on every exit path, via `finally` — by
the cleanup decrements. -/
def handleClientEvents (isActive : Bool) (selectedIdx : Option Nat)
    (outcome : RelayOutcome) : List ConnEvent :=
  if !isActive then []
  else
    match selectedIdx with
    | none => []
    | some i =>
      match outcome with
      | RelayOutcome.pumpsDone => [ConnEvent.accept i, ConnEvent.finish i]
      | RelayOutcome.connectFailed => [ConnEvent.accept i, ConnEvent.finish i]
      | RelayOutcome.handlerCancelled => [ConnEvent.accept i, ConnEvent.finish i]

/-- `get_bridge_stats()` totals summed over the bridge list, as
`sum(stats[i]['total'] for i in range(len(bridges)))`. -/
def bridgeStatsTotalSum (s : BalancerStats) (numBridges : Nat) : Nat :=
  (List.range numBridges).foldl (fun a i => a + s.connectionsPerBridge i) 0

/-! ## Concrete fixtures used by witness instantiations -/

/-- A running bridge on port 4 backed by `u0`. -/
def wBridge0 : BridgeRuntime :=
  { tag := "t0", port := 4, uri := "u0", process := some 1, workdir := some 1 }

/-- The bridge after rotation: same port, backed by `u1`. -/
def wBridge1 : BridgeRuntime :=
  { tag := "t1", port := 4, uri := "u1", process := some 2, workdir := some 2 }

/-- A fresh `OK` test entry for `u1`. -/
def wEntry1 : TestResult := { uri := "u1", status := "OK", host := "h", port := 9 }

/-- A one-bridge manager state before rotation. -/
def wState0 : ManagerState :=
  { running := true, bridges := [wBridge0], entries := [wEntry1],
    outbounds := [("u1", "t1")] }

/-- The manager state after the successful rotation of bridge 0. -/
def wState1 : ManagerState :=
  { running := true, bridges := [wBridge1], entries := [wEntry1],
    outbounds := [("u1", "t1")], usedProxiesQueue := ["u0"] }

/-- The rotation oracle for the witness run. -/
def wOracle : RotateOracle := { choice := 0, launchOk := true, newProc := 2, newWorkdir := 2 }

/-- The trace of the witness rotation. -/
def wEvents : List REvent :=
  [REvent.selectedCandidate "u1" ["u0"] [], REvent.terminatedOld (some 1),
    REvent.launchedNew 4]

/-- A probe oracle for the health-check runs below: TCP connects succeed
only towards the host `hGood`, and every functional probe succeeds with a
50 ms ping and the exit IP `9.9.9.9`, which no lookup can geolocate. -/
def wHCOracle : ProbeOracle :=
  { socketOk := fun h _ => h == "hGood",
    funcTest := fun _ => FuncOutcome.functional 50 (some "9.9.9.9"),
    serverGeoLookup := fun _ => none,
    exitGeoLookup := fun _ => none }

/-- An entry whose URI is cache-served. -/
def wEntryCached : TestResult := { uri := "uc", host := "hGood", port := 80 }

/-- An uncached entry whose host accepts TCP connects. -/
def wEntryGood : TestResult := { uri := "ug", host := "hGood", port := 81 }

/-- An uncached entry whose host refuses TCP connects. -/
def wEntryBad : TestResult := { uri := "ub", host := "hBad", port := 82 }

/-- A health-checker state with the cache enabled and one cached URI. -/
def wHCState : HCState :=
  { entries := [wEntryCached, wEntryGood, wEntryBad],
    outboundUris := ["uc", "ug", "ub"], useCache := true, cacheUris := ["uc"] }

/-- Default health-check parameters (no force, no early stop). -/
def wHCParams : HCParams := {}

/-- Health-check parameters with an active `US` country filter. -/
def wP2Params : HCParams := { countryFilter := some "US" }

/-! # Theorems -/

/-! ## Tag sanitization (C9) -/

theorem mem_collapseSpaces {l : List Char} {c : Char}
    (hc : c ∈ collapseSpaces l) : (c ∈ l ∧ pyIsSpace c = false) ∨ c = '_' := by
  induction l with
  | nil => simp [collapseSpaces] at hc
  | cons a rest ih =>
    by_cases hs : pyIsSpace a
    · cases rest with
      | nil =>
        have hc2 : c ∈ ['_'] := by
          simpa [collapseSpaces, hs] using hc
        right; simpa using hc2
      | cons d t =>
        have hc2 : c ∈ (if pyIsSpace d then collapseSpaces (d :: t)
            else '_' :: collapseSpaces (d :: t)) := by
          simpa [collapseSpaces, hs] using hc
        by_cases hd : pyIsSpace d
        · rw [if_pos hd] at hc2
          rcases ih hc2 with ⟨h1, h2⟩ | h
          · exact Or.inl ⟨List.mem_cons_of_mem _ h1, h2⟩
          · exact Or.inr h
        · rw [if_neg hd] at hc2
          rcases List.mem_cons.mp hc2 with h | h
          · exact Or.inr h
          · rcases ih h with ⟨h1, h2⟩ | h3
            · exact Or.inl ⟨List.mem_cons_of_mem _ h1, h2⟩
            · exact Or.inr h3
    · have hc2 : c ∈ a :: collapseSpaces rest := by
        simpa [collapseSpaces, hs] using hc
      rcases List.mem_cons.mp hc2 with h | h
      · refine Or.inl ⟨?_, ?_⟩
        · rw [h]; exact List.mem_cons_self _ _
        · rw [h]; exact Bool.eq_false_iff.mpr hs
      · rcases ih h with ⟨h1, h2⟩ | h3
        · exact Or.inl ⟨List.mem_cons_of_mem _ h1, h2⟩
        · exact Or.inr h3

theorem pyStripList_sublist (l : List Char) : (pyStripList l).Sublist l := by
  have h1 : (l.dropWhile pyIsSpace).Sublist l := List.dropWhile_sublist _
  have h2 : ((l.dropWhile pyIsSpace).reverse.dropWhile pyIsSpace).Sublist
      (l.dropWhile pyIsSpace).reverse := List.dropWhile_sublist _
  have h3 := h2.reverse
  rw [List.reverse_reverse] at h3
  exact h3.trans h1

theorem mem_pyStripList {l : List Char} {c : Char} (hc : c ∈ pyStripList l) : c ∈ l :=
  (pyStripList_sublist l).mem hc

/-- C9: for every input, `_sanitize_tag` falls back to the supplied scheme
name when the tag is absent or strips to nothing; otherwise it keeps only
characters of the class `[\w\-. ]`, collapses whitespace runs to single
underscores (so no whitespace survives) and truncates to 48 characters;
consequently the result never contains a path separator (`/` or `\`)
provided the fallback contains none. -/
theorem sanitizeTag_sanitizes (tag : Option String) (fb : String)
    (hfb : '/' ∉ fb.data ∧ '\\' ∉ fb.data) :
    (sanitizeTag none fb = fb) ∧
    (∀ t : String, (pyStripList t.data).isEmpty → sanitizeTag (some t) fb = fb) ∧
    (sanitizeTag tag fb = fb ∨
      ((sanitizeTag tag fb).data.length ≤ 48 ∧
        ∀ c ∈ (sanitizeTag tag fb).data,
          (pyIsWordChar c || c = '-' || c = '.') = true)) ∧
    '/' ∉ (sanitizeTag tag fb).data ∧ '\\' ∉ (sanitizeTag tag fb).data := by
  have hclass : ∀ t : String, sanitizeTag (some t) fb = fb ∨
      ((sanitizeTag (some t) fb).data.length ≤ 48 ∧
        ∀ c ∈ (sanitizeTag (some t) fb).data,
          (pyIsWordChar c || c = '-' || c = '.') = true) := by
    intro t
    unfold sanitizeTag
    by_cases hstrip : (pyStripList t.data).isEmpty
    · left; simp [hstrip]
    · simp only [hstrip, Bool.false_eq_true, if_neg, Bool.not_eq_true]
      by_cases hemp : ((collapseSpaces (pyStripList (t.data.filter keptTagChar))).take 48).isEmpty
      · left; simp [hemp]
      · right
        simp only [hemp, Bool.false_eq_true, if_neg, Bool.not_eq_true]
        constructor
        · exact List.length_take_le _ _
        · intro c hc
          have hc2 : c ∈ collapseSpaces (pyStripList (t.data.filter keptTagChar)) :=
            List.mem_of_mem_take hc
          rcases mem_collapseSpaces hc2 with ⟨h1, h2⟩ | h3
          · have h4 : c ∈ t.data.filter keptTagChar := mem_pyStripList h1
            have h5 : keptTagChar c = true := (List.mem_filter.mp h4).2
            simp only [keptTagChar, Bool.or_eq_true] at h5
            rcases h5 with ((hw | hm) | hd) | hsp
            · simp [hw]
            · simp [hm]
            · simp [hd]
            · exfalso
              have : pyIsSpace c = true := by
                have : c = ' ' := by simpa using hsp
                simp [this, pyIsSpace]
              simp [this] at h2
          · subst h3
            simp [pyIsWordChar]
  have hnone : sanitizeTag none fb = fb := rfl
  have hempty : ∀ t : String, (pyStripList t.data).isEmpty → sanitizeTag (some t) fb = fb := by
    intro t ht
    unfold sanitizeTag
    simp [ht]
  have hnosep : '/' ∉ (sanitizeTag tag fb).data ∧ '\\' ∉ (sanitizeTag tag fb).data := by
    cases tag with
    | none => rw [hnone]; exact hfb
    | some t =>
      rcases hclass t with h | ⟨_, hchars⟩
      · rw [h]; exact hfb
      · constructor
        · intro hmem
          have := hchars _ hmem
          simp [pyIsWordChar, Char.isAlphanum, Char.isAlpha, Char.isUpper,
            Char.isLower, Char.isDigit] at this
        · intro hmem
          have := hchars _ hmem
          simp [pyIsWordChar, Char.isAlphanum, Char.isAlpha, Char.isUpper,
            Char.isLower, Char.isDigit] at this
  refine ⟨hnone, hempty, ?_, hnosep⟩
  cases tag with
  | none => exact Or.inl hnone
  | some t => exact hclass t

/-- C9 witness: a concrete sanitization (`"My Tag/1!"` with fallback
`"ss"`) satisfying the theorem. -/
theorem sanitizeTag_sanitizes_witness :
    (sanitizeTag none "ss" = "ss") ∧
    (∀ t : String, (pyStripList t.data).isEmpty → sanitizeTag (some t) "ss" = "ss") ∧
    (sanitizeTag (some "My Tag/1!") "ss" = "ss" ∨
      ((sanitizeTag (some "My Tag/1!") "ss").data.length ≤ 48 ∧
        ∀ c ∈ (sanitizeTag (some "My Tag/1!") "ss").data,
          (pyIsWordChar c || c = '-' || c = '.') = true)) ∧
    '/' ∉ (sanitizeTag (some "My Tag/1!") "ss").data ∧
    '\\' ∉ (sanitizeTag (some "My Tag/1!") "ss").data :=
  sanitizeTag_sanitizes (some "My Tag/1!") "ss" (by decide)

/-! ## Cache age parsing (C3) -/

theorem dropWhileFixed {α : Type} (p : α → Bool) (l : List α)
    (h : ∀ c ∈ l, p c = false) : l.dropWhile p = l := by
  cases l with
  | nil => rfl
  | cons a rest =>
    rw [List.dropWhile_cons]
    simp [h a (List.mem_cons_self a rest)]

theorem pyStripListFixed (l : List Char) (h : ∀ c ∈ l, pyIsSpace c = false) :
    pyStripList l = l := by
  unfold pyStripList
  rw [dropWhileFixed pyIsSpace l h]
  rw [dropWhileFixed pyIsSpace l.reverse (fun c hc => h c (List.mem_reverse.mp hc))]
  exact List.reverse_reverse l

theorem mapToUpperFixed (l : List Char) (h : ∀ c ∈ l, c.toUpper = c) :
    l.map Char.toUpper = l := by
  induction l with
  | nil => rfl
  | cons a rest ih =>
    simp only [List.map_cons, h a (List.mem_cons_self a rest)]
    rw [ih (fun c hc => h c (List.mem_cons_of_mem a hc))]

theorem splitOnComma_cons (c : Char) (x : List Char) :
    splitOnComma (c :: x) =
      if c = ',' then [] :: splitOnComma x
      else
        match splitOnComma x with
        | [] => [[c]]
        | h :: t => (c :: h) :: t := rfl

theorem splitOnComma_ne_nil (l : List Char) : splitOnComma l ≠ [] := by
  cases l with
  | nil => simp [splitOnComma]
  | cons a rest =>
    rw [splitOnComma_cons]
    by_cases ha : a = ','
    · simp [ha]
    · simp only [ha, if_neg, Bool.not_eq_true]
      cases h : splitOnComma rest with
      | nil => simp
      | cons x t => simp

theorem splitOnComma_append (p l : List Char) (hp : ∀ c ∈ p, c ≠ ',')
    {h : List Char} {t : List (List Char)} (hl : splitOnComma l = h :: t) :
    splitOnComma (p ++ l) = (p ++ h) :: t := by
  induction p with
  | nil => simpa using hl
  | cons a p' ih =>
    have ha : a ≠ ',' := hp a (List.mem_cons_self a p')
    have ih2 := ih (fun c hc => hp c (List.mem_cons_of_mem a hc))
    simp only [List.cons_append]
    rw [splitOnComma_cons, if_neg ha, ih2]

theorem splitOnComma_joinComma :
    ∀ parts : List (List Char), parts ≠ [] →
    (∀ part ∈ parts, ∀ c ∈ part, c ≠ ',') →
    splitOnComma (joinComma parts) = parts := by
  intro parts
  induction parts with
  | nil => intro h; exact absurd rfl h
  | cons p rest ih =>
    intro _ hnc
    cases rest with
    | nil =>
      show splitOnComma (joinComma [p]) = [p]
      have : joinComma [p] = p := rfl
      rw [this]
      have : splitOnComma (p ++ []) = (p ++ []) :: [] := by
        exact splitOnComma_append p [] (fun c hc => hnc p (List.mem_cons_self _ _) c hc) rfl
      simpa using this
    | cons q rest2 =>
      have hji : joinComma (p :: q :: rest2) = p ++ ',' :: joinComma (q :: rest2) := rfl
      rw [hji]
      have hrec := ih (by simp) (fun part hpart c hc => hnc part (List.mem_cons_of_mem p hpart) c hc)
      have hsplit : splitOnComma (',' :: joinComma (q :: rest2)) =
          [] :: splitOnComma (joinComma (q :: rest2)) := by
        rw [splitOnComma_cons, if_pos rfl]
      cases hrecEq : splitOnComma (joinComma (q :: rest2)) with
      | nil => exact absurd hrecEq (splitOnComma_ne_nil _)
      | cons h2 t2 =>
        have := splitOnComma_append p (',' :: joinComma (q :: rest2))
          (fun c hc => hnc p (List.mem_cons_self _ _) c hc)
          (h := []) (t := h2 :: t2) (by rw [hsplit, hrecEq])
        rw [this]
        rw [hrecEq] at hrec
        simpa using hrec

theorem unitSecs_cases (u : Char) (h : (unitSecs u).isSome) :
    u = 'H' ∨ u = 'D' ∨ u = 'S' := by
  unfold unitSecs at h
  split_ifs at h with h1 h2 h3
  · exact Or.inl h1
  · exact Or.inr (Or.inl h2)
  · exact Or.inr (Or.inr h3)
  · simp at h

theorem digitCharFacts (c : Char)
    (h : c ∈ ['0', '1', '2', '3', '4', '5', '6', '7', '8', '9']) :
    c.isDigit = true ∧ c.toUpper = c ∧ pyIsSpace c = false ∧ c ≠ ',' := by
  fin_cases h <;> exact ⟨by decide, by decide, by decide, by decide⟩

theorem unitCharFacts (u : Char) (h : (unitSecs u).isSome) :
    u.toUpper = u ∧ pyIsSpace u = false ∧ u ≠ ',' := by
  rcases unitSecs_cases u h with rfl | rfl | rfl <;>
    exact ⟨by decide, by decide, by decide⟩

theorem parseAgePartsConsEq (p : List Char) (rest : List (List Char)) :
    parseAgeParts (p :: rest) =
      if p.isEmpty then parseAgeParts rest
      else
        match agePartMatch p with
        | none => Except.error "invalid time format"
        | some (v, secs) =>
          if v = 0 then Except.error "time value must be positive"
          else (parseAgeParts rest).map (fun l => v * secs :: l) := rfl

theorem parseAgeParts_valid :
    ∀ parts : List (List Char × Char),
    (∀ pr ∈ parts,
      pr.1 ≠ [] ∧ (∀ c ∈ pr.1, c ∈ ['0', '1', '2', '3', '4', '5', '6', '7', '8', '9']) ∧
        digitsVal pr.1 ≠ 0 ∧ (unitSecs pr.2).isSome) →
    parseAgeParts (parts.map (fun pr => pr.1 ++ [pr.2])) =
      Except.ok (parts.map (fun pr => digitsVal pr.1 * (unitSecs pr.2).getD 0)) := by
  intro parts
  induction parts with
  | nil => intro _; rfl
  | cons pr rest ih =>
    intro hvalid
    obtain ⟨hne, hdig, hval, hunit⟩ := hvalid pr (List.mem_cons_self _ _)
    obtain ⟨secs, hsecs⟩ := Option.isSome_iff_exists.mp hunit
    have hrest := ih (fun q hq => hvalid q (List.mem_cons_of_mem pr hq))
    have hall : pr.1.all Char.isDigit = true := by
      rw [List.all_eq_true]
      intro c hc
      exact (digitCharFacts c (hdig c hc)).1
    have hmatch : agePartMatch (pr.1 ++ [pr.2]) = some (digitsVal pr.1, secs) := by
      unfold agePartMatch
      rw [List.getLast?_concat]
      dsimp only
      rw [hsecs]
      dsimp only
      rw [List.dropLast_concat]
      simp [hall, List.isEmpty_iff, hne]
    simp only [List.map_cons]
    rw [parseAgePartsConsEq]
    have hpne : ((pr.1 ++ [pr.2]).isEmpty) = false := by
      simp
    rw [hpne]
    simp only [Bool.false_eq_true, if_neg, Bool.not_eq_true]
    rw [hmatch]
    simp only [hval, if_neg]
    rw [hrest]
    simp [hsecs, Except.map]

/-- C3 counterexample: the unit `W` is rejected by `_parse_age_str`
(weeks are written `S`), and the empty expression raises `ValueError`
instead of meaning "everything". -/
theorem parseAgeStr_W_and_empty_rejected :
    parseAgeStr "2W" = Except.error "invalid time format" ∧
    ¬(parseAgeStr "2W" = Except.ok (2 * 604800)) ∧
    parseAgeStr "" = Except.error "empty age string" := by
  have h2w : parseAgeStr "2W" = Except.error "invalid time format" := rfl
  refine ⟨h2w, ?_, rfl⟩
  intro h
  rw [h2w] at h
  exact Except.noConfusion h

/-- C3 (amended): the age expression is parsed with `H` = 3600 s,
`D` = 86400 s and `S` (semanas) = 604800 s — `W` is not a unit — a
comma-joined expression yields the sum of its parts, and the empty
expression is an error rather than meaning "everything". -/
theorem parseAgeStr_sums (parts : List (List Char × Char))
    (hne : parts ≠ [])
    (hvalid : ∀ pr ∈ parts,
      pr.1 ≠ [] ∧ (∀ c ∈ pr.1, c ∈ ['0', '1', '2', '3', '4', '5', '6', '7', '8', '9']) ∧
        digitsVal pr.1 ≠ 0 ∧ (unitSecs pr.2).isSome) :
    parseAgeStr (String.mk (joinComma (parts.map (fun pr => pr.1 ++ [pr.2])))) =
      Except.ok ((parts.map (fun pr => digitsVal pr.1 * (unitSecs pr.2).getD 0)).sum) ∧
    unitSecs 'H' = some 3600 ∧ unitSecs 'D' = some 86400 ∧
    unitSecs 'S' = some 604800 ∧ unitSecs 'W' = none := by
  refine ⟨?_, by decide, by decide, by decide, by decide⟩
  have hpartsNoComma : ∀ part ∈ parts.map (fun pr => pr.1 ++ [pr.2]), ∀ c ∈ part, c ≠ ',' := by
    intro part hpart c hc
    obtain ⟨pr, hpr, rfl⟩ := List.mem_map.mp hpart
    obtain ⟨_, hdig, _, hunit⟩ := hvalid pr hpr
    rcases List.mem_append.mp hc with h | h
    · exact (digitCharFacts c (hdig c h)).2.2.2
    · have : c = pr.2 := by simpa using h
      rw [this]
      exact (unitCharFacts pr.2 hunit).2.2
  have hmapNe : parts.map (fun pr => pr.1 ++ [pr.2]) ≠ [] := by
    intro h
    exact hne (List.map_eq_nil_iff.mp h)
  have hsplit := splitOnComma_joinComma (parts.map (fun pr => pr.1 ++ [pr.2])) hmapNe
    hpartsNoComma
  have hjoinNe : joinComma (parts.map (fun pr => pr.1 ++ [pr.2])) ≠ [] := by
    intro h
    have := splitOnComma_ne_nil (joinComma (parts.map (fun pr => pr.1 ++ [pr.2])))
    rw [h] at hsplit
    have : ([] : List Char) :: [] = parts.map (fun pr => pr.1 ++ [pr.2]) := by
      simpa [splitOnComma] using hsplit
    obtain ⟨pr, hpr, hprEq⟩ := List.mem_map.mp (this ▸ List.mem_cons_self _ _)
    exact absurd hprEq.symm (by simp)
  have hfix : (parts.map (fun pr => pr.1 ++ [pr.2])).map
      (fun p => (pyStripList p).map Char.toUpper) = parts.map (fun pr => pr.1 ++ [pr.2]) := by
    rw [List.map_map]
    apply List.map_congr_left
    intro pr hpr
    obtain ⟨_, hdig, _, hunit⟩ := hvalid pr hpr
    show (pyStripList (pr.1 ++ [pr.2])).map Char.toUpper = pr.1 ++ [pr.2]
    have hnospace : ∀ c ∈ pr.1 ++ [pr.2], pyIsSpace c = false := by
      intro c hc
      rcases List.mem_append.mp hc with h | h
      · exact (digitCharFacts c (hdig c h)).2.2.1
      · have : c = pr.2 := by simpa using h
        rw [this]; exact (unitCharFacts pr.2 hunit).2.1
    rw [pyStripListFixed _ hnospace]
    apply mapToUpperFixed
    intro c hc
    rcases List.mem_append.mp hc with h | h
    · exact (digitCharFacts c (hdig c h)).2.1
    · have : c = pr.2 := by simpa using h
      rw [this]; exact (unitCharFacts pr.2 hunit).1
  unfold parseAgeStr
  have hdata : (String.mk (joinComma (parts.map (fun pr => pr.1 ++ [pr.2])))).data
      = joinComma (parts.map (fun pr => pr.1 ++ [pr.2])) := rfl
  rw [hdata]
  rw [if_neg (by simpa [List.isEmpty_iff] using hjoinNe)]
  rw [hsplit, hfix]
  dsimp only
  rw [parseAgeParts_valid parts hvalid]
  dsimp only
  rw [if_neg (by
    simp only [List.isEmpty_iff, List.map_eq_nil_iff]
    exact hne)]

/-- C3 amended-claim witness: `"1D,5H"` parses to 104400 seconds. -/
theorem parseAgeStr_sums_witness :
    parseAgeStr (String.mk (joinComma ([(['1'], 'D'), (['5'], 'H')].map
        (fun pr => pr.1 ++ [pr.2])))) =
      Except.ok (([(['1'], 'D'), (['5'], 'H')].map
        (fun pr => digitsVal pr.1 * (unitSecs pr.2).getD 0)).sum) ∧
    unitSecs 'H' = some 3600 ∧ unitSecs 'D' = some 86400 ∧
    unitSecs 'S' = some 604800 ∧ unitSecs 'W' = none :=
  parseAgeStr_sums [(['1'], 'D'), (['5'], 'H')] (by decide)
    (by
      intro pr hpr
      fin_cases hpr <;> exact ⟨by decide, by decide, by decide, by decide⟩)

/-! ## Cache pruning (C4) -/

/-- C4 counterexample: an entry whose `tested_at_ts` lies exactly on the
boundary `now - age` satisfies `tested_at ≥ now - age`, yet `prune`
removes it (the keep comparison is strict). -/
theorem clearCachePrune_boundary_removed :
    clearCachePrune [{ uri := "u", status := "OK", testedAtTs := some 1400 }] "1H" 5000 =
      Except.ok [] ∧
    (1400 : ℚ) ≥ 5000 - 3600 := by
  constructor
  · unfold clearCachePrune
    have hp : parseAgeStr "1H" = Except.ok 3600 := by decide
    rw [hp]
    simp only [List.filter_cons, List.filter_nil]
    norm_num
  · norm_num

/-- C4 (amended): after `prune(age)` the survivors are exactly the entries
with a numeric `tested_at_ts` satisfying `now - tested_at < age` (strictly);
every surviving entry satisfies `now - tested_at < age`, and an entry is
removed precisely when its timestamp is missing or `tested_at ≤ now - age`
— so an entry exactly at the boundary is removed, not kept. -/
theorem clearCachePrune_keeps (entries : List CacheEntry) (ageStr : String)
    (now : ℚ) (dur : Nat) (kept : List CacheEntry)
    (hparse : parseAgeStr ageStr = Except.ok dur)
    (hrun : clearCachePrune entries ageStr now = Except.ok kept) :
    ∀ e : CacheEntry,
      e ∈ kept ↔ e ∈ entries ∧ ∃ t : ℚ, e.testedAtTs = some t ∧ now - t < (dur : ℚ) := by
  unfold clearCachePrune at hrun
  rw [hparse] at hrun
  have hkept : kept = entries.filter (fun e =>
      match e.testedAtTs with
      | some t => decide (t > now - (dur : ℚ))
      | none => false) := by
    cases hrun
    rfl
  intro e
  rw [hkept, List.mem_filter]
  constructor
  · rintro ⟨hmem, hpred⟩
    refine ⟨hmem, ?_⟩
    cases hts : e.testedAtTs with
    | none => rw [hts] at hpred; simp at hpred
    | some t =>
      rw [hts] at hpred
      simp only [decide_eq_true_eq] at hpred
      exact ⟨t, rfl, by linarith⟩
  · rintro ⟨hmem, t, hts, hlt⟩
    refine ⟨hmem, ?_⟩
    rw [hts]
    simp only [decide_eq_true_eq]
    linarith

/-- C4 amended-claim witness: with `now = 5000` and age `1H`, the entry
tested at 1401 survives and is characterized by the strict bound. -/
theorem clearCachePrune_keeps_witness :
    ({ uri := "u", status := "OK", testedAtTs := some 1401 } : CacheEntry) ∈
        [({ uri := "u", status := "OK", testedAtTs := some 1401 } : CacheEntry)] ↔
      ({ uri := "u", status := "OK", testedAtTs := some 1401 } : CacheEntry) ∈
          [({ uri := "u", status := "OK", testedAtTs := some 1401 } : CacheEntry)] ∧
        ∃ t : ℚ, ({ uri := "u", status := "OK", testedAtTs := some 1401 } :
            CacheEntry).testedAtTs = some t ∧ (5000 : ℚ) - t < ((3600 : Nat) : ℚ) :=
  clearCachePrune_keeps
    [{ uri := "u", status := "OK", testedAtTs := some 1401 }] "1H" 5000 3600
    [{ uri := "u", status := "OK", testedAtTs := some 1401 }]
    (by decide)
    (by
      unfold clearCachePrune
      have hp : parseAgeStr "1H" = Except.ok 3600 := by decide
      rw [hp]
      simp only [List.filter_cons, List.filter_nil]
      norm_num)
    { uri := "u", status := "OK", testedAtTs := some 1401 }

/-! ## URI parser invariants (C6) -/

theorem parseSS_protocol {uri : String} {ob : Outbound}
    (h : parseSS uri = Except.ok ob) : ob.protocol = "shadowsocks" := by
  unfold parseSS at h
  dsimp only at h
  split at h
  · exact absurd h (by simp)
  · split at h
    · exact absurd h (by simp)
    · split at h
      · exact absurd h (by simp)
      · injection h with h2
        rw [← h2]

theorem vmessOutboundFromDict_protocol {d : List (String × JVal)} {fb : String}
    {ob : Outbound} (h : vmessOutboundFromDict d fb = Except.ok ob) :
    ob.protocol = "vmess" := by
  unfold vmessOutboundFromDict at h
  dsimp only at h
  split at h
  · exact absurd h (by simp)
  · split at h
    · exact absurd h (by simp)
    · injection h with h2
      rw [← h2]

theorem parseVless_protocol {uri : String} {ob : Outbound}
    (h : parseVless uri = Except.ok ob) : ob.protocol = "vless" := by
  unfold parseVless at h
  dsimp only at h
  split at h
  · exact absurd h (by simp)
  · injection h with h2
    rw [← h2]

theorem parseTrojan_protocol {uri : String} {ob : Outbound}
    (h : parseTrojan uri = Except.ok ob) : ob.protocol = "trojan" := by
  unfold parseTrojan at h
  dsimp only at h
  split at h
  · exact absurd h (by simp)
  · injection h with h2
    rw [← h2]

/-- C6 counterexample: `ss://YTpiQGg6MA==` (base64 of `a:b@h:0`) carries
port `0`, outside `[1, 65535]`, yet the parser yields an `Outbound` for it
instead of a parse error. -/
theorem parseSS_port_zero_accepted :
    parseSS "ss://YTpiQGg6MA==" =
      Except.ok { tag := "ss", protocol := "shadowsocks", host := "h", port := 0 } ∧
    ¬(1 ≤ (0 : Int)) := by
  exact ⟨by decide, by decide⟩

/-- C6 (amended): every `Outbound` produced by the URI parser satisfies
`protocol ∈ \x7bshadowsocks, vmess, vless, trojan\x7d`; the port is parsed
as an integer but its range is not validated by the `ss` and `vmess`
parsers, so `port ∈ [1, 65535]` is not guaranteed (e.g. port 0 parses). -/
theorem parserProtocolInvariant (uri : String) (d : List (String × JVal))
    (fb : String) (ob : Outbound)
    (h : parseSS uri = Except.ok ob ∨ vmessOutboundFromDict d fb = Except.ok ob ∨
      parseVless uri = Except.ok ob ∨ parseTrojan uri = Except.ok ob) :
    ob.protocol = "shadowsocks" ∨ ob.protocol = "vmess" ∨
      ob.protocol = "vless" ∨ ob.protocol = "trojan" := by
  rcases h with h | h | h | h
  · exact Or.inl (parseSS_protocol h)
  · exact Or.inr (Or.inl (vmessOutboundFromDict_protocol h))
  · exact Or.inr (Or.inr (Or.inl (parseVless_protocol h)))
  · exact Or.inr (Or.inr (Or.inr (parseTrojan_protocol h)))

/-- C6 amended-claim witness: the concrete `ss://` URI above produces an
in-set protocol. -/
theorem parserProtocolInvariant_witness :
    ({ tag := "ss", protocol := "shadowsocks", host := "h", port := 0 } :
        Outbound).protocol = "shadowsocks" ∨
    ({ tag := "ss", protocol := "shadowsocks", host := "h", port := 0 } :
        Outbound).protocol = "vmess" ∨
    ({ tag := "ss", protocol := "shadowsocks", host := "h", port := 0 } :
        Outbound).protocol = "vless" ∨
    ({ tag := "ss", protocol := "shadowsocks", host := "h", port := 0 } :
        Outbound).protocol = "trojan" :=
  parserProtocolInvariant "ss://YTpiQGg6MA==" [] "vmess"
    { tag := "ss", protocol := "shadowsocks", host := "h", port := 0 }
    (Or.inl (by decide))

/-! ## Empty proxy set (C7) -/

/-- C7 counterexample: with no URIs loaded, `test()` raises
`InsufficientProxiesError("No proxies loaded to test.")` — it does not
return an empty result list. -/
theorem test_empty_raises :
    testMethod
        { socketOk := fun _ _ => false, funcTest := fun _ => FuncOutcome.notFunctional "x",
          serverGeoLookup := fun _ => none, exitGeoLookup := fun _ => none }
        { entries := [] } {} = Except.error "No proxies loaded to test." ∧
    ¬(testMethod
        { socketOk := fun _ _ => false, funcTest := fun _ => FuncOutcome.notFunctional "x",
          serverGeoLookup := fun _ => none, exitGeoLookup := fun _ => none }
        { entries := [] } {} = Except.ok []) := by
  refine ⟨rfl, ?_⟩
  intro h
  have h2 : (Except.error "No proxies loaded to test." : Except String (List TestResult))
      = Except.ok [] := by
    rw [← h]
    rfl
  exact Except.noConfusion h2

/-- C7 (amended): on an empty proxy set, `test()` raises
`InsufficientProxiesError` (it does not return an empty list), and
`start()` — via `_prepare_proxies_for_start` — raises
`InsufficientProxiesError` when the cache is also empty or disabled. -/
theorem emptyProxySet_raises (o : ProbeOracle) (st : HCState) (p : HCParams)
    (ms : ManagerState) (loaded : List (String × String))
    (h1 : st.outboundUris = []) (h2 : ms.outbounds = []) (h3 : ms.running = false)
    (h4 : ms.useCache = false ∨ ms.cacheEntries = []) :
    testMethod o st p = Except.error "No proxies loaded to test." ∧
    prepareProxiesForStart ms loaded =
      Except.error "No proxies loaded and the cache is empty." := by
  constructor
  · unfold testMethod
    rw [if_pos (by simp [h1, List.isEmpty_iff])]
  · unfold prepareProxiesForStart
    rw [if_neg (by simp [h3])]
    have hcond : (ms.useCache && !ms.cacheEntries.isEmpty) = false := by
      rcases h4 with h | h
      · simp [h]
      · simp [h]
    rw [if_pos (by simp [h2, List.isEmpty_iff])]
    simp only [hcond, Bool.false_eq_true, if_neg, Bool.not_eq_true]
    simp

/-- C7 amended-claim witness at concrete empty states. -/
theorem emptyProxySet_raises_witness :
    testMethod
        { socketOk := fun _ _ => true, funcTest := fun _ => FuncOutcome.functional 1 none,
          serverGeoLookup := fun _ => none, exitGeoLookup := fun _ => none }
        { entries := [] } {} = Except.error "No proxies loaded to test." ∧
    prepareProxiesForStart {} [] =
      Except.error "No proxies loaded and the cache is empty." :=
  emptyProxySet_raises
    { socketOk := fun _ _ => true, funcTest := fun _ => FuncOutcome.functional 1 none,
      serverGeoLookup := fun _ => none, exitGeoLookup := fun _ => none }
    { entries := [] } {} {} [] rfl rfl rfl (Or.inl rfl)

/-! ## Load-balancer accounting (C8) -/

theorem foldlAddEqSum (f : Nat → Nat) : ∀ (l : List Nat) (a : Nat),
    l.foldl (fun a i => a + f i) a = a + (l.map f).sum := by
  intro l
  induction l with
  | nil => intro a; simp
  | cons x rest ih =>
    intro a
    simp only [List.foldl_cons, List.map_cons, List.sum_cons]
    rw [ih]
    omega

theorem sumMapUpdate (i : Nat) (f : Nat → Nat) :
    ∀ l : List Nat, l.Nodup → i ∈ l →
    (l.map (fun j => if j = i then f j + 1 else f j)).sum = (l.map f).sum + 1 := by
  intro l
  induction l with
  | nil => intro _ hi; simp at hi
  | cons x rest ih =>
    intro hnd hi
    simp only [List.map_cons, List.sum_cons]
    rcases List.mem_cons.mp hi with heq | hmem
    · rw [if_pos heq.symm]
      have hxnotin : x ∉ rest := (List.nodup_cons.mp hnd).1
      have : rest.map (fun j => if j = i then f j + 1 else f j) = rest.map f := by
        apply List.map_congr_left
        intro j hj
        rw [if_neg (by
          intro hji
          exact hxnotin (heq ▸ hji ▸ hj))]
      rw [this]
      omega
    · have hxi : x ≠ i := by
        intro hxe
        exact (List.nodup_cons.mp hnd).1 (hxe ▸ hmem)
      rw [if_neg hxi, ih (List.nodup_cons.mp hnd).2 hmem]
      omega

theorem bridgeStatsTotalSumEq (s : BalancerStats) (B : Nat) :
    bridgeStatsTotalSum s B = ((List.range B).map s.connectionsPerBridge).sum := by
  unfold bridgeStatsTotalSum
  rw [foldlAddEqSum]
  exact Nat.zero_add _

theorem statsStep_preserves_total_eq (B : Nat) (s : BalancerStats) (ev : ConnEvent)
    (hvalid : ∀ i, ev = ConnEvent.accept i → i < B)
    (hs : s.totalConnections = bridgeStatsTotalSum s B) :
    (statsStep s ev).totalConnections = bridgeStatsTotalSum (statsStep s ev) B := by
  cases ev with
  | accept i =>
    have hi : i < B := hvalid i rfl
    rw [bridgeStatsTotalSumEq] at hs ⊢
    show s.totalConnections + 1 = ((List.range B).map
      (fun j => if j = i then s.connectionsPerBridge j + 1 else s.connectionsPerBridge j)).sum
    rw [sumMapUpdate i s.connectionsPerBridge (List.range B) (List.nodup_range B)
      (List.mem_range.mpr hi)]
    omega
  | finish i =>
    rw [bridgeStatsTotalSumEq] at hs ⊢
    exact hs

theorem statsFoldInvariant (B : Nat) : ∀ (evs : List ConnEvent) (s : BalancerStats),
    (∀ i, ConnEvent.accept i ∈ evs → i < B) →
    s.totalConnections = bridgeStatsTotalSum s B →
    (evs.foldl statsStep s).totalConnections =
      bridgeStatsTotalSum (evs.foldl statsStep s) B := by
  intro evs
  induction evs with
  | nil => intro s _ hs; exact hs
  | cons ev rest ih =>
    intro s hvalid hs
    simp only [List.foldl_cons]
    apply ih
    · intro i hi
      exact hvalid i (List.mem_cons_of_mem ev hi)
    · apply statsStep_preserves_total_eq B s ev
      · intro i hev
        exact hvalid i (hev ▸ List.mem_cons_self ev rest)
      · exact hs

/-- C8: after any sequence of accepted connections and completions whose
bridge indices are in range, `total_connections` equals the sum over all
bridges of the per-bridge total; the accept step increments the global and
per-bridge counters together; and one `_handle_client` call leaves the
active counters unchanged on completion regardless of how the relaying
ended (`finally` cleanup). -/
theorem loadBalancerAccounting (evs : List ConnEvent) (B : Nat)
    (hvalid : ∀ i, ConnEvent.accept i ∈ evs → i < B) :
    (statsRun evs).totalConnections = bridgeStatsTotalSum (statsRun evs) B ∧
    (∀ (s : BalancerStats) (i : Nat),
      (statsStep s (ConnEvent.accept i)).totalConnections = s.totalConnections + 1 ∧
      (statsStep s (ConnEvent.accept i)).connectionsPerBridge i =
        s.connectionsPerBridge i + 1 ∧
      (statsStep s (ConnEvent.accept i)).activeConnections = s.activeConnections + 1 ∧
      (statsStep s (ConnEvent.accept i)).activePerBridge i = s.activePerBridge i + 1) ∧
    (∀ (isActive : Bool) (sel : Option Nat) (outcome : RelayOutcome),
      (statsRun (evs ++ handleClientEvents isActive sel outcome)).activeConnections =
        (statsRun evs).activeConnections ∧
      ∀ j, (statsRun (evs ++ handleClientEvents isActive sel outcome)).activePerBridge j =
        (statsRun evs).activePerBridge j) := by
  refine ⟨?_, ?_, ?_⟩
  · apply statsFoldInvariant B evs {} hvalid
    rw [bridgeStatsTotalSumEq]
    show 0 = ((List.range B).map (fun _ => 0)).sum
    simp
  · intro s i
    refine ⟨rfl, by simp [statsStep], rfl, by simp [statsStep]⟩
  · intro isActive sel outcome
    unfold statsRun
    rw [List.foldl_append]
    cases isActive with
    | false => exact ⟨rfl, fun _ => rfl⟩
    | true =>
      cases sel with
      | none => exact ⟨rfl, fun _ => rfl⟩
      | some i =>
        cases outcome <;>
          exact ⟨by simp [handleClientEvents, statsStep], by
            intro j
            by_cases hj : j = i <;> simp [handleClientEvents, statsStep, hj]⟩

/-- C8 witness: a concrete trace of two accepts and one completion over
two bridges. -/
theorem loadBalancerAccounting_witness :
    (statsRun [ConnEvent.accept 0, ConnEvent.accept 1, ConnEvent.finish 0]).totalConnections =
      bridgeStatsTotalSum
        (statsRun [ConnEvent.accept 0, ConnEvent.accept 1, ConnEvent.finish 0]) 2 ∧
    (∀ (s : BalancerStats) (i : Nat),
      (statsStep s (ConnEvent.accept i)).totalConnections = s.totalConnections + 1 ∧
      (statsStep s (ConnEvent.accept i)).connectionsPerBridge i =
        s.connectionsPerBridge i + 1 ∧
      (statsStep s (ConnEvent.accept i)).activeConnections = s.activeConnections + 1 ∧
      (statsStep s (ConnEvent.accept i)).activePerBridge i = s.activePerBridge i + 1) ∧
    (∀ (isActive : Bool) (sel : Option Nat) (outcome : RelayOutcome),
      (statsRun ([ConnEvent.accept 0, ConnEvent.accept 1, ConnEvent.finish 0] ++
          handleClientEvents isActive sel outcome)).activeConnections =
        (statsRun [ConnEvent.accept 0, ConnEvent.accept 1,
          ConnEvent.finish 0]).activeConnections ∧
      ∀ j, (statsRun ([ConnEvent.accept 0, ConnEvent.accept 1, ConnEvent.finish 0] ++
          handleClientEvents isActive sel outcome)).activePerBridge j =
        (statsRun [ConnEvent.accept 0, ConnEvent.accept 1,
          ConnEvent.finish 0]).activePerBridge j) :=
  loadBalancerAccounting [ConnEvent.accept 0, ConnEvent.accept 1, ConnEvent.finish 0] 2
    (by
      intro i hi
      simp only [List.mem_cons, List.not_mem_nil, or_false] at hi
      rcases hi with h | h | h
      · cases h; omega
      · cases h; omega
      · exact absurd h (by simp))

/-! ## Bridge rotation (C5) -/

theorem getCandidates_mem {entries : List TestResult} {cf : Option String}
    {used dests : List String} {e : TestResult}
    (he : e ∈ getCandidates entries cf used dests) :
    e.status = "OK" ∧ e.uri ∉ used := by
  unfold getCandidates at he
  have h := List.mem_filter.mp he
  obtain ⟨-, hcond⟩ := h
  simp only [Bool.and_eq_true, decide_eq_true_eq, Bool.not_eq_true'] at hcond
  refine ⟨hcond.1.1.1, ?_⟩
  intro hmem
  have h2 : used.elem e.uri = false := hcond.1.2
  rw [List.elem_eq_mem] at h2
  simp [hmem] at h2

theorem rotateCandidateSearch_spec (st : ManagerState) (o : RotateOracle) :
    (rotateCandidateSearch st o).1.bridges = st.bridges ∧
    (rotateCandidateSearch st o).1.running = st.running ∧
    (∀ u ∈ st.bridges.map (fun b => b.uri), u ∈ (rotateCandidateSearch st o).2.2.2.1) ∧
    (∀ u ∈ (rotateCandidateSearch st o).2.2.2.2,
      u ∈ (rotateCandidateSearch st o).2.2.2.1) ∧
    (∀ e ∈ (rotateCandidateSearch st o).2.2.1,
      e.status = "OK" ∧ e.uri ∉ (rotateCandidateSearch st o).2.2.2.1) := by
  unfold rotateCandidateSearch
  dsimp only
  by_cases h1 : ((getCandidates st.entries st.countryFilter
      (st.bridges.map (fun b => b.uri) ++ st.usedProxiesQueue)
      (st.bridges.filterMap (fun b => (entryMapGet st.entries b.uri).bind destinationOf))).isEmpty
      && !st.sources.isEmpty) = true
  · rw [if_pos h1]
    dsimp only
    split
    · dsimp only
      refine ⟨rfl, rfl, ?_, ?_, ?_⟩
      · intro u hu; exact hu
      · intro u hu; exact absurd hu (List.not_mem_nil u)
      · intro e he; exact getCandidates_mem he
    · dsimp only
      refine ⟨rfl, rfl, ?_, ?_, ?_⟩
      · intro u hu; exact List.mem_append_left _ hu
      · intro u hu; exact List.mem_append_right _ hu
      · intro e he; exact getCandidates_mem he
  · rw [if_neg h1]
    dsimp only
    split
    · dsimp only
      refine ⟨rfl, rfl, ?_, ?_, ?_⟩
      · intro u hu; exact hu
      · intro u hu; exact absurd hu (List.not_mem_nil u)
      · intro e he; exact getCandidates_mem he
    · dsimp only
      refine ⟨rfl, rfl, ?_, ?_, ?_⟩
      · intro u hu; exact List.mem_append_left _ hu
      · intro u hu; exact List.mem_append_right _ hu
      · intro e he; exact getCandidates_mem he

theorem usedQueuePush_getLast (q : List String) (u : String) :
    (usedQueuePush q u).getLast? = some u := by
  unfold usedQueuePush
  dsimp only
  have hlen : (q ++ [u]).length = q.length + 1 := by simp
  by_cases h : (q ++ [u]).length ≤ 100
  · have hz : (q ++ [u]).length - 100 = 0 := by omega
    rw [hz, List.drop_zero, List.getLast?_concat]
  · have hle : (q ++ [u]).length - 100 ≤ q.length := by
      rw [hlen]
      omega
    rw [List.drop_append_of_le_length hle, List.getLast?_concat]

/-- C5: every successful rotation preserves the bridge id (slot) and its
local port, touches no other slot, appends the old uri to the UsedQueue,
and selects a uri that was in neither the pre-rotation active set nor the
used-proxies queue at the instant of selection. -/
theorem rotateProxy_frame (st : ManagerState) (o : RotateOracle) (bridgeId : Nat)
    (st' : ManagerState) (evs : List REvent)
    (hrot : rotateProxy st o bridgeId = (true, st', evs)) :
    ∃ b b' : BridgeRuntime,
      st.bridges.get? bridgeId = some b ∧
      st'.bridges.get? bridgeId = some b' ∧
      b'.port = b.port ∧
      st'.bridges.length = st.bridges.length ∧
      (∀ j, j ≠ bridgeId → st'.bridges.get? j = st.bridges.get? j) ∧
      st'.usedProxiesQueue.getLast? = some b.uri ∧
      b'.uri ≠ b.uri ∧
      (∃ usedUris queueSnap : List String,
        REvent.selectedCandidate b'.uri usedUris queueSnap ∈ evs ∧
        b'.uri ∉ st.bridges.map (fun bb => bb.uri) ∧
        b'.uri ∉ queueSnap) := by
  unfold rotateProxy at hrot
  split at hrot
  · simp at hrot
  · split at hrot
    · simp at hrot
    · rename_i bridge hbridge
      obtain ⟨hbr, hrun, hactive, hsnap, hcands⟩ := rotateCandidateSearch_spec st o
      rcases hdest : rotateCandidateSearch st o with ⟨st2, evsSel, cands2, usedUris2, queueSnap⟩
      rw [hdest] at hrot hbr hrun hactive hsnap hcands
      dsimp only at hrot hbr hrun hactive hsnap hcands
      split at hrot
      · simp at hrot
      · rename_i newEntry hget
        split at hrot
        · simp at hrot
        · rename_i newTag htag
          split at hrot
          · simp at hrot
          · rename_i hlaunch
            have hne : newEntry ∈ cands2 := List.get?_mem hget
            obtain ⟨-, hnotused⟩ := hcands newEntry hne
            injection hrot with h1 h2
            injection h2 with hst hevs
            have hlt : bridgeId < st.bridges.length := by
              rcases List.get?_eq_some.mp hbridge with ⟨hl, -⟩
              exact hl
            have hbrmem : bridge ∈ st.bridges := List.get?_mem hbridge
            have holdmem : bridge.uri ∈ st.bridges.map (fun bb => bb.uri) :=
              List.mem_map_of_mem (fun bb => bb.uri) hbrmem
            refine ⟨bridge,
              { tag := newTag, port := bridge.port, uri := newEntry.uri,
                process := some o.newProc, workdir := some o.newWorkdir },
              hbridge, ?_, rfl, ?_, ?_, ?_, ?_, ?_⟩
            · rw [← hst]
              dsimp only
              rw [hbr]
              exact List.get?_set_eq_of_lt _ hlt
            · rw [← hst]
              dsimp only
              rw [hbr, List.length_set]
            · intro j hj
              rw [← hst]
              dsimp only
              rw [hbr]
              exact List.get?_set_ne _ _ (fun he => hj he.symm)
            · rw [← hst]
              dsimp only
              exact usedQueuePush_getLast _ _
            · dsimp only
              intro heq
              exact hnotused (heq ▸ hactive bridge.uri holdmem)
            · refine ⟨usedUris2, queueSnap, ?_, ?_, ?_⟩
              · rw [← hevs]
                exact List.mem_append_left _
                  (List.mem_append_right _ (List.mem_cons_self _ _))
              · dsimp only
                intro hmem
                exact hnotused (hactive newEntry.uri hmem)
              · dsimp only
                intro hmem
                exact hnotused (hsnap newEntry.uri hmem)

/-- C5 witness: a concrete successful rotation of the only bridge, from
`u0` to the fresh `OK` candidate `u1`, on the same port 4. -/
theorem rotateProxy_frame_witness :
    ∃ b b' : BridgeRuntime,
      wState0.bridges.get? 0 = some b ∧
      wState1.bridges.get? 0 = some b' ∧
      b'.port = b.port ∧
      wState1.bridges.length = wState0.bridges.length ∧
      (∀ j, j ≠ 0 → wState1.bridges.get? j = wState0.bridges.get? j) ∧
      wState1.usedProxiesQueue.getLast? = some b.uri ∧
      b'.uri ≠ b.uri ∧
      (∃ usedUris queueSnap : List String,
        REvent.selectedCandidate b'.uri usedUris queueSnap ∈ wEvents ∧
        b'.uri ∉ wState0.bridges.map (fun bb => bb.uri) ∧
        b'.uri ∉ queueSnap) :=
  rotateProxy_frame wState0 wOracle 0 wState1 wEvents (by decide)

/-! ## Health-checker lemmas (shared by C1, C2, C10) -/

theorem screenGo_socketEvents (o : ProbeOracle) (now : ℚ) (em : Bool) :
    ∀ (l : List (Nat × TestResult)), ∀ pr ∈ l,
      TEvent.socketAttempt pr.2.uri pr.2.host pr.2.port 1 ∈ (screenGo o now em l).events := by
  intro l
  induction l with
  | nil => intro pr h; simp at h
  | cons hd rest ih =>
    intro pr hpr
    obtain ⟨i, e⟩ := hd
    rcases List.mem_cons.mp hpr with heq | hmem
    · subst heq
      by_cases hok : o.socketOk e.host e.port
      · simp only [screenGo, hok, if_true]
        exact List.mem_cons_self _ _
      · simp only [screenGo, hok, Bool.false_eq_true, if_false]
        exact List.mem_cons_self _ _
    · have hrec := ih pr hmem
      by_cases hok : o.socketOk e.host e.port
      · simp only [screenGo, hok, if_true]
        exact List.mem_cons_of_mem _ hrec
      · simp only [screenGo, hok, Bool.false_eq_true, if_false]
        refine List.mem_cons_of_mem _ (List.mem_append_right _ hrec)

theorem screenGo_events_shape (o : ProbeOracle) (now : ℚ) (em : Bool) :
    ∀ (l : List (Nat × TestResult)), ∀ ev ∈ (screenGo o now em l).events,
      (∃ pr ∈ l, ev = TEvent.socketAttempt pr.2.uri pr.2.host pr.2.port 1) ∨
      (∃ u, ev = TEvent.progress u false) := by
  intro l
  induction l with
  | nil => intro ev h; simp [screenGo] at h
  | cons hd rest ih =>
    intro ev hev
    obtain ⟨i, e⟩ := hd
    by_cases hok : o.socketOk e.host e.port
    · simp only [screenGo, hok, if_true] at hev
      rcases List.mem_cons.mp hev with heq | hmem
      · exact Or.inl ⟨(i, e), List.mem_cons_self _ _, heq⟩
      · rcases ih ev hmem with ⟨pr, hpr, hshape⟩ | h
        · exact Or.inl ⟨pr, List.mem_cons_of_mem _ hpr, hshape⟩
        · exact Or.inr h
    · simp only [screenGo, hok, Bool.false_eq_true, if_false] at hev
      rcases List.mem_cons.mp hev with heq | hmem
      · exact Or.inl ⟨(i, e), List.mem_cons_self _ _, heq⟩
      · rcases List.mem_append.mp hmem with hprog | hrest
        · refine Or.inr ⟨e.uri, ?_⟩
          cases em with
          | true => simpa using hprog
          | false => simp at hprog
        · rcases ih ev hrest with ⟨pr, hpr, hshape⟩ | h
          · exact Or.inl ⟨pr, List.mem_cons_of_mem _ hpr, hshape⟩
          · exact Or.inr h

theorem screenGo_fail_mem (o : ProbeOracle) (now : ℚ) (em : Bool) :
    ∀ (l : List (Nat × TestResult)), ∀ pr ∈ l,
      o.socketOk pr.2.host pr.2.port = false →
      (pr.1, phase1FailEntry now pr.2) ∈ (screenGo o now em l).upds := by
  intro l
  induction l with
  | nil => intro pr h; simp at h
  | cons hd rest ih =>
    intro pr hpr hfail
    obtain ⟨i, e⟩ := hd
    rcases List.mem_cons.mp hpr with heq | hmem
    · subst heq
      simp only [screenGo, hfail, Bool.false_eq_true, if_false]
      exact List.mem_cons_self _ _
    · have hrec := ih pr hmem hfail
      by_cases hok : o.socketOk e.host e.port
      · simp only [screenGo, hok, if_true]
        exact List.mem_cons_of_mem _ hrec
      · simp only [screenGo, hok, Bool.false_eq_true, if_false]
        exact List.mem_cons_of_mem _ hrec

theorem screenGo_upds_fst (o : ProbeOracle) (now : ℚ) (em : Bool) :
    ∀ (l : List (Nat × TestResult)),
      (screenGo o now em l).upds.map Prod.fst = l.map Prod.fst := by
  intro l
  induction l with
  | nil => rfl
  | cons hd rest ih =>
    obtain ⟨i, e⟩ := hd
    by_cases hok : o.socketOk e.host e.port
    · simp only [screenGo, hok, if_true, List.map_cons, ih]
    · simp only [screenGo, hok, Bool.false_eq_true, if_false, List.map_cons, ih]

theorem screenGo_online_mem (o : ProbeOracle) (now : ℚ) (em : Bool) :
    ∀ (l : List (Nat × TestResult)), ∀ pr ∈ (screenGo o now em l).online,
      pr ∈ l ∧ o.socketOk pr.2.host pr.2.port = true := by
  intro l
  induction l with
  | nil => intro pr h; simp [screenGo] at h
  | cons hd rest ih =>
    intro pr hpr
    obtain ⟨i, e⟩ := hd
    by_cases hok : o.socketOk e.host e.port
    · simp only [screenGo, hok, if_true] at hpr
      rcases List.mem_cons.mp hpr with heq | hmem
      · subst heq; exact ⟨List.mem_cons_self _ _, hok⟩
      · obtain ⟨h1, h2⟩ := ih pr hmem
        exact ⟨List.mem_cons_of_mem _ h1, h2⟩
    · simp only [screenGo, hok, Bool.false_eq_true, if_false] at hpr
      obtain ⟨h1, h2⟩ := ih pr hpr
      exact ⟨List.mem_cons_of_mem _ h1, h2⟩

theorem cacheScanGo_toTest_char (u f : Bool) (c : List String) (cf : Option String)
    (em : Bool) : ∀ (l : List (Nat × TestResult)) (pr : Nat × TestResult),
      pr ∈ (cacheScanGo u f c cf em l).toTest ↔
        pr ∈ l ∧ (u && !f && (u && c.contains pr.2.uri)) = false := by
  intro l
  induction l with
  | nil => intro pr; simp [cacheScanGo]
  | cons hd rest ih =>
    intro pr
    obtain ⟨i, e⟩ := hd
    by_cases hskip : (u && !f && (u && c.contains e.uri)) = true
    · simp only [cacheScanGo, hskip, if_true]
      rw [ih pr]
      constructor
      · rintro ⟨h1, h2⟩
        exact ⟨List.mem_cons_of_mem _ h1, h2⟩
      · rintro ⟨h1, h2⟩
        rcases List.mem_cons.mp h1 with heq | hmem
        · subst heq; rw [hskip] at h2; exact absurd h2 (by simp)
        · exact ⟨hmem, h2⟩
    · simp only [cacheScanGo, hskip, Bool.not_eq_true, if_neg, if_false]
      constructor
      · intro h
        rcases List.mem_cons.mp h with heq | hmem
        · subst heq
          exact ⟨List.mem_cons_self _ _, Bool.eq_false_iff.mpr hskip⟩
        · obtain ⟨h1, h2⟩ := (ih pr).mp hmem
          exact ⟨List.mem_cons_of_mem _ h1, h2⟩
      · rintro ⟨h1, h2⟩
        rcases List.mem_cons.mp h1 with heq | hmem
        · subst heq; exact List.mem_cons_self _ _
        · exact List.mem_cons_of_mem _ ((ih pr).mpr ⟨hmem, h2⟩)

theorem cacheScanGo_events_shape (u f : Bool) (c : List String) (cf : Option String)
    (em : Bool) : ∀ (l : List (Nat × TestResult)),
      ∀ ev ∈ (cacheScanGo u f c cf em l).events, ∃ uu, ev = TEvent.progress uu true := by
  intro l
  induction l with
  | nil => intro ev h; simp [cacheScanGo] at h
  | cons hd rest ih =>
    intro ev hev
    obtain ⟨i, e⟩ := hd
    by_cases hskip : (u && !f && (u && c.contains e.uri)) = true
    · simp only [cacheScanGo, hskip, if_true] at hev
      rcases List.mem_append.mp hev with hprog | hrest
      · refine ⟨e.uri, ?_⟩
        cases em with
        | true => simpa using hprog
        | false => simp at hprog
      · exact ih ev hrest
    · simp only [cacheScanGo, hskip, Bool.not_eq_true, if_neg, if_false] at hev
      exact ih ev hev

theorem cacheScanGo_upds_fst_mem (u f : Bool) (c : List String) (cf : Option String)
    (em : Bool) : ∀ (l : List (Nat × TestResult)),
      ∀ pr ∈ (cacheScanGo u f c cf em l).upds,
        ∃ q ∈ l, pr.1 = q.1 ∧ (u && !f && (u && c.contains q.2.uri)) = true := by
  intro l
  induction l with
  | nil => intro pr h; simp [cacheScanGo] at h
  | cons hd rest ih =>
    intro pr hpr
    obtain ⟨i, e⟩ := hd
    by_cases hskip : (u && !f && (u && c.contains e.uri)) = true
    · simp only [cacheScanGo, hskip, if_true] at hpr
      rcases List.mem_cons.mp hpr with heq | hmem
      · exact ⟨(i, e), List.mem_cons_self _ _, by rw [heq], hskip⟩
      · obtain ⟨q, hq, h1, h2⟩ := ih pr hmem
        exact ⟨q, List.mem_cons_of_mem _ hq, h1, h2⟩
    · simp only [cacheScanGo, hskip, Bool.not_eq_true, if_neg, if_false] at hpr
      obtain ⟨q, hq, h1, h2⟩ := ih pr hpr
      exact ⟨q, List.mem_cons_of_mem _ hq, h1, h2⟩

theorem runGo_events_shape (o : ProbeOracle) (p : HCParams) :
    ∀ (l : List (Nat × TestResult)) (s t : Nat) (c : Bool),
      ∀ ev ∈ (runFunctionalGo o p l s t c).events,
        (∃ pr ∈ l, ev = TEvent.funcProbe pr.2.uri p.timeout) ∨
        (∃ u, ev = TEvent.progress u false) := by
  intro l
  induction l with
  | nil => intro s t c ev h; simp [runFunctionalGo] at h
  | cons hd rest ih =>
    intro s t c ev hev
    obtain ⟨i, e⟩ := hd
    cases c with
    | true =>
      simp only [runFunctionalGo, if_true] at hev
      rcases ih s t true ev hev with ⟨pr, hpr, hshape⟩ | h
      · exact Or.inl ⟨pr, List.mem_cons_of_mem _ hpr, hshape⟩
      · exact Or.inr h
    | false =>
      simp only [runFunctionalGo, Bool.false_eq_true, if_false] at hev
      rcases List.mem_cons.mp hev with heq | hmem
      · exact Or.inl ⟨(i, e), List.mem_cons_self _ _, heq⟩
      · rcases List.mem_append.mp hmem with hprog | hrest
        · refine Or.inr ⟨(phase2Entry o p e).uri, ?_⟩
          by_cases hem : p.emitProgress
          · simpa [hem] using hprog
          · simp [hem] at hprog
        · rcases ih _ _ _ ev hrest with ⟨pr, hpr, hshape⟩ | h
          · exact Or.inl ⟨pr, List.mem_cons_of_mem _ hpr, hshape⟩
          · exact Or.inr h

theorem runGo_probe_events (o : ProbeOracle) (p : HCParams) :
    ∀ (l : List (Nat × TestResult)) (s t : Nat) (c : Bool),
      ∀ u tt, TEvent.funcProbe u tt ∈ (runFunctionalGo o p l s t c).events →
        ∃ pr ∈ l, u = pr.2.uri := by
  intro l s t c u tt hev
  rcases runGo_events_shape o p l s t c _ hev with ⟨pr, hpr, hshape⟩ | ⟨uu, hshape⟩
  · exact ⟨pr, hpr, by injection hshape⟩
  · exact absurd hshape (by simp)

theorem runGo_processed_char (o : ProbeOracle) (p : HCParams) :
    ∀ (l : List (Nat × TestResult)) (s t : Nat) (c : Bool),
      ∀ pr ∈ (runFunctionalGo o p l s t c).processed,
        ∃ q ∈ l, pr = (q.1, phase2Entry o p q.2) := by
  intro l
  induction l with
  | nil => intro s t c pr h; simp [runFunctionalGo] at h
  | cons hd rest ih =>
    intro s t c pr hpr
    obtain ⟨i, e⟩ := hd
    cases c with
    | true =>
      simp only [runFunctionalGo, if_true] at hpr
      obtain ⟨q, hq, hshape⟩ := ih s t true pr hpr
      exact ⟨q, List.mem_cons_of_mem _ hq, hshape⟩
    | false =>
      simp only [runFunctionalGo, Bool.false_eq_true, if_false] at hpr
      rcases List.mem_cons.mp hpr with heq | hmem
      · exact ⟨(i, e), List.mem_cons_self _ _, heq⟩
      · obtain ⟨q, hq, hshape⟩ := ih _ _ _ pr hmem
        exact ⟨q, List.mem_cons_of_mem _ hq, hshape⟩

theorem runGo_success_count (o : ProbeOracle) (p : HCParams) :
    ∀ (l : List (Nat × TestResult)) (s t : Nat) (c : Bool),
      (runFunctionalGo o p l s t c).success =
        s + ((runFunctionalGo o p l s t c).processed.filter
          (fun q => q.2.status = "OK")).length := by
  intro l
  induction l with
  | nil => intro s t c; simp [runFunctionalGo]
  | cons hd rest ih =>
    intro s t c
    obtain ⟨i, e⟩ := hd
    cases c with
    | true =>
      simp only [runFunctionalGo, if_true]
      exact ih s t true
    | false =>
      simp only [runFunctionalGo, Bool.false_eq_true, if_false]
      rw [List.filter_cons]
      by_cases hok : (phase2Entry o p e).status = "OK"
      · simp only [hok, decide_eq_true_eq, if_pos, List.length_cons]
        rw [ih _ _ _]
        try simp [hok]
        try omega
      · simp only [hok, decide_eq_true_eq, if_neg, decide_eq_false hok]
        rw [ih _ _ _]
        simp only [hok, Bool.false_eq_true, if_neg, if_false]

theorem runGo_processed_nil_of_cancelled (o : ProbeOracle) (p : HCParams) :
    ∀ (l : List (Nat × TestResult)) (s t : Nat),
      (runFunctionalGo o p l s t true).processed = [] := by
  intro l
  induction l with
  | nil => intro s t; rfl
  | cons hd rest ih =>
    intro s t
    obtain ⟨i, e⟩ := hd
    simp only [runFunctionalGo, if_true]
    exact ih s t

theorem runGo_fst_concat (o : ProbeOracle) (p : HCParams) :
    ∀ (l : List (Nat × TestResult)) (s t : Nat) (c : Bool),
      (runFunctionalGo o p l s t c).processed.map Prod.fst ++
        (runFunctionalGo o p l s t c).cancelledRest.map Prod.fst = l.map Prod.fst := by
  intro l
  induction l with
  | nil => intro s t c; simp [runFunctionalGo]
  | cons hd rest ih =>
    intro s t c
    obtain ⟨i, e⟩ := hd
    cases c with
    | true =>
      have hih := ih s t true
      rw [runGo_processed_nil_of_cancelled] at hih
      simp only [runFunctionalGo, if_true]
      rw [runGo_processed_nil_of_cancelled]
      simp only [List.map_nil, List.nil_append, List.map_cons] at hih ⊢
      rw [hih]
    | false =>
      simp only [runFunctionalGo, Bool.false_eq_true, if_false]
      simp only [List.map_cons, List.cons_append]
      rw [ih _ _ _]

theorem find?_fst_none {α : Type} {l : List (Nat × α)} {i : Nat}
    (h : ∀ pr ∈ l, ¬pr.1 = i) : l.find? (fun q => q.1 = i) = none := by
  rw [List.find?_eq_none]
  intro x hx
  simp [h x hx]

theorem find?_fst_mem_nodup {α : Type} {l : List (Nat × α)} {pr : Nat × α}
    (hmem : pr ∈ l) (hnd : (l.map Prod.fst).Nodup) :
    l.find? (fun q => q.1 = pr.1) = some pr := by
  induction l with
  | nil => simp at hmem
  | cons hd rest ih =>
    rcases List.mem_cons.mp hmem with heq | hmem2
    · subst heq
      rw [List.find?_cons_of_pos _ (by simp)]
    · have hne : ¬hd.1 = pr.1 := by
        intro he
        have : pr.1 ∈ rest.map Prod.fst := List.mem_map_of_mem Prod.fst hmem2
        rw [List.map_cons, List.nodup_cons] at hnd
        exact hnd.1 (he ▸ this)
      rw [List.find?_cons_of_neg _ (by simp [hne])]
      exact ih hmem2 (by
        rw [List.map_cons, List.nodup_cons] at hnd
        exact hnd.2)

theorem mergeByIdx_mem {orig : List TestResult} {upds : List (Nat × TestResult)}
    {i : Nat} {e : TestResult} {x : TestResult}
    (hfind : upds.find? (fun q => q.1 = i) = some (i, e))
    (hget : orig.get? i = some x) : e ∈ mergeByIdx orig upds := by
  unfold mergeByIdx
  have henum : (i, x) ∈ orig.enum := List.mem_enum_iff_get?.mpr hget
  have : (match upds.find? (fun q => q.1 = (i, x).1) with
      | some q => q.2
      | none => (i, x).2) = e := by
    show (match upds.find? (fun q => q.1 = i) with
      | some q => q.2
      | none => x) = e
    rw [hfind]
  rw [← this]
  exact List.mem_map_of_mem _ henum

theorem phase1Of_events (o : ProbeOracle) (st : HCState) (p : HCParams) :
    (phase1Of o st p).events =
      TEvent.semCreate 1 100 ::
        (screenGo o p.now p.emitProgress (scanOf st p).toTest).events := rfl

theorem phase1Of_upds (o : ProbeOracle) (st : HCState) (p : HCParams) :
    (phase1Of o st p).upds =
      (screenGo o p.now p.emitProgress (scanOf st p).toTest).upds := rfl

theorem phase1Of_online (o : ProbeOracle) (st : HCState) (p : HCParams) :
    (phase1Of o st p).online =
      (screenGo o p.now p.emitProgress (scanOf st p).toTest).online := rfl

theorem performHealthChecks_events_stop (o : ProbeOracle) (st : HCState) (p : HCParams)
    (hstop : stopReached p.stopOnSuccess (scanOf st p).success = true) :
    (performHealthChecks o st p).events =
      (scanOf st p).events ++ (if st.useCache then [TEvent.cacheSave] else []) := by
  unfold performHealthChecks
  rw [if_pos hstop]

theorem performHealthChecks_events_noTests (o : ProbeOracle) (st : HCState) (p : HCParams)
    (hstop : stopReached p.stopOnSuccess (scanOf st p).success = false)
    (hne : (scanOf st p).toTest.isEmpty = true) :
    (performHealthChecks o st p).events =
      (scanOf st p).events ++ saveEvents st.useCache := by
  unfold performHealthChecks
  rw [if_neg (by simp [hstop]), if_pos hne]

theorem performHealthChecks_events_main (o : ProbeOracle) (st : HCState) (p : HCParams)
    (hstop : stopReached p.stopOnSuccess (scanOf st p).success = false)
    (hne : (scanOf st p).toTest.isEmpty = false) :
    (performHealthChecks o st p).events =
      (scanOf st p).events ++ (phase1Of o st p).events
        ++ (if (phase1Of o st p).online.isEmpty then []
            else TEvent.semCreate 2 p.threads :: (phase2Of o st p).events)
        ++ saveEvents st.useCache := by
  unfold performHealthChecks
  rw [if_neg (by simp [hstop]), if_neg (by simp [hne]), if_neg (by simp [hstop])]

theorem performHealthChecks_entries_main (o : ProbeOracle) (st : HCState) (p : HCParams)
    (hstop : stopReached p.stopOnSuccess (scanOf st p).success = false)
    (hne : (scanOf st p).toTest.isEmpty = false) :
    (performHealthChecks o st p).entries =
      (mergeByIdx st.entries (hcUpds o st p)).map
        (fun e => if p.skipGeo then e else postLoadExitGeo o st.findipToken e) := by
  unfold performHealthChecks
  rw [if_neg (by simp [hstop]), if_neg (by simp [hne]), if_neg (by simp [hstop])]

theorem saveEvents_shape (u : Bool) :
    ∀ ev ∈ saveEvents u, ev = TEvent.cacheSave ∨ ev = TEvent.geoCacheSave := by
  intro ev hev
  cases u with
  | true =>
    simp only [saveEvents, if_true] at hev
    rcases List.mem_append.mp hev with h | h
    · left; simpa using h
    · right; simpa using h
  | false =>
    simp only [saveEvents, Bool.false_eq_true, if_false, List.nil_append] at hev
    right; simpa using hev

theorem postLoadExitGeo_of_not_ok (o : ProbeOracle) (tok : Bool) (e : TestResult)
    (h : ¬e.status = "OK") : postLoadExitGeo o tok e = e := by
  unfold postLoadExitGeo
  cases htok : tok with
  | false => simp
  | true =>
    simp only [Bool.not_true, Bool.false_eq_true, if_neg, Bool.not_eq_true]
    cases e.exitGeo with
    | none => simp
    | some g => simp [h]

/-! ## Cache short-circuit (C10) -/

/-- C10: with the cache enabled and `force` off, a URI with any cached
entry — regardless of its cached status — is neither socket-screened in
Phase 1 nor functionally probed in Phase 2; and (when the cache hits do not
already satisfy the early stop) every entry whose URI is absent from the
cache does get its Phase-1 connect attempt. -/
theorem cachedUrisSkipped (o : ProbeOracle) (st : HCState) (p : HCParams)
    (hcache : st.useCache = true) (hforce : p.forceRefresh = false) :
    (∀ u h port t, TEvent.socketAttempt u h port t ∈ (performHealthChecks o st p).events →
      u ∉ st.cacheUris) ∧
    (∀ u t, TEvent.funcProbe u t ∈ (performHealthChecks o st p).events →
      u ∉ st.cacheUris) ∧
    (stopReached p.stopOnSuccess (scanOf st p).success = false →
      ∀ pr ∈ st.entries.enum, pr.2.uri ∉ st.cacheUris →
        TEvent.socketAttempt pr.2.uri pr.2.host pr.2.port 1 ∈
          (performHealthChecks o st p).events) := by
  have hchar : ∀ pr : Nat × TestResult, pr ∈ (scanOf st p).toTest ↔
      pr ∈ st.entries.enum ∧ st.cacheUris.contains pr.2.uri = false := by
    intro pr
    have h := cacheScanGo_toTest_char st.useCache p.forceRefresh st.cacheUris
      p.countryFilter p.emitProgress st.entries.enum pr
    rw [hcache, hforce] at h
    simpa [scanOf, hcache, hforce] using h
  have hnotmem : ∀ x : String, st.cacheUris.contains x = false → x ∉ st.cacheUris := by
    intro x hx hmem
    have hx2 : st.cacheUris.elem x = false := hx
    rw [List.elem_eq_mem] at hx2
    simp [hmem] at hx2
  have hmemnot : ∀ x : String, x ∉ st.cacheUris → st.cacheUris.contains x = false := by
    intro x hx
    show st.cacheUris.elem x = false
    rw [List.elem_eq_mem]
    simp [hx]
  have htoTestNot : ∀ pr : Nat × TestResult, pr ∈ (scanOf st p).toTest →
      pr.2.uri ∉ st.cacheUris := by
    intro pr hpr
    exact hnotmem _ ((hchar pr).mp hpr).2
  refine ⟨?_, ?_, ?_⟩
  · intro u h port t hev
    by_cases hstop : stopReached p.stopOnSuccess (scanOf st p).success = true
    · rw [performHealthChecks_events_stop o st p hstop] at hev
      rcases List.mem_append.mp hev with hs | hs
      · obtain ⟨uu, huu⟩ := cacheScanGo_events_shape _ _ _ _ _ _ _ hs
        exact absurd huu (by simp)
      · rw [hcache] at hs
        simp at hs
    · have hstop2 : stopReached p.stopOnSuccess (scanOf st p).success = false :=
        Bool.eq_false_iff.mpr hstop
      by_cases hne : (scanOf st p).toTest.isEmpty = true
      · rw [performHealthChecks_events_noTests o st p hstop2 hne] at hev
        rcases List.mem_append.mp hev with hs | hs
        · obtain ⟨uu, huu⟩ := cacheScanGo_events_shape _ _ _ _ _ _ _ hs
          exact absurd huu (by simp)
        · rcases saveEvents_shape _ _ hs with h1 | h1 <;> exact absurd h1 (by simp)
      · rw [performHealthChecks_events_main o st p hstop2
          (Bool.eq_false_iff.mpr hne)] at hev
        rcases List.mem_append.mp hev with hev3 | hs
        swap
        · rcases saveEvents_shape _ _ hs with h1 | h1 <;> exact absurd h1 (by simp)
        rcases List.mem_append.mp hev3 with hev2 | hs
        swap
        · by_cases honline : (phase1Of o st p).online.isEmpty = true
          · rw [if_pos honline] at hs
            simp at hs
          · rw [if_neg honline] at hs
            rcases List.mem_cons.mp hs with h1 | h1
            · exact absurd h1 (by simp)
            · rcases runGo_events_shape _ _ _ _ _ _ _ h1 with ⟨pr, hpr, hshape⟩ | ⟨uu, huu⟩
              · exact absurd hshape (by simp)
              · exact absurd huu (by simp)
        rcases List.mem_append.mp hev2 with hs | hs
        · obtain ⟨uu, huu⟩ := cacheScanGo_events_shape _ _ _ _ _ _ _ hs
          exact absurd huu (by simp)
        · rw [phase1Of_events] at hs
          rcases List.mem_cons.mp hs with h1 | h1
          · exact absurd h1 (by simp)
          · rcases screenGo_events_shape _ _ _ _ _ h1 with ⟨pr, hpr, hshape⟩ | ⟨uu, huu⟩
            · have huri : u = pr.2.uri := by injection hshape
              rw [huri]
              exact htoTestNot pr hpr
            · exact absurd huu (by simp)
  · intro u t hev
    by_cases hstop : stopReached p.stopOnSuccess (scanOf st p).success = true
    · rw [performHealthChecks_events_stop o st p hstop] at hev
      rcases List.mem_append.mp hev with hs | hs
      · obtain ⟨uu, huu⟩ := cacheScanGo_events_shape _ _ _ _ _ _ _ hs
        exact absurd huu (by simp)
      · rw [hcache] at hs
        simp at hs
    · have hstop2 : stopReached p.stopOnSuccess (scanOf st p).success = false :=
        Bool.eq_false_iff.mpr hstop
      by_cases hne : (scanOf st p).toTest.isEmpty = true
      · rw [performHealthChecks_events_noTests o st p hstop2 hne] at hev
        rcases List.mem_append.mp hev with hs | hs
        · obtain ⟨uu, huu⟩ := cacheScanGo_events_shape _ _ _ _ _ _ _ hs
          exact absurd huu (by simp)
        · rcases saveEvents_shape _ _ hs with h1 | h1 <;> exact absurd h1 (by simp)
      · rw [performHealthChecks_events_main o st p hstop2
          (Bool.eq_false_iff.mpr hne)] at hev
        rcases List.mem_append.mp hev with hev3 | hs
        swap
        · rcases saveEvents_shape _ _ hs with h1 | h1 <;> exact absurd h1 (by simp)
        rcases List.mem_append.mp hev3 with hev2 | hs
        swap
        · by_cases honline : (phase1Of o st p).online.isEmpty = true
          · rw [if_pos honline] at hs
            simp at hs
          · rw [if_neg honline] at hs
            rcases List.mem_cons.mp hs with h1 | h1
            · exact absurd h1 (by simp)
            · obtain ⟨pr, hpr, huri⟩ := runGo_probe_events _ _ _ _ _ _ _ _ h1
              have hpr2 := (screenGo_online_mem _ _ _ _ _ (phase1Of_online o st p ▸ hpr)).1
              rw [huri]
              exact htoTestNot pr hpr2
        rcases List.mem_append.mp hev2 with hs | hs
        · obtain ⟨uu, huu⟩ := cacheScanGo_events_shape _ _ _ _ _ _ _ hs
          exact absurd huu (by simp)
        · rw [phase1Of_events] at hs
          rcases List.mem_cons.mp hs with h1 | h1
          · exact absurd h1 (by simp)
          · rcases screenGo_events_shape _ _ _ _ _ h1 with ⟨pr, hpr, hshape⟩ | ⟨uu, huu⟩
            · exact absurd hshape (by simp)
            · exact absurd huu (by simp)
  · intro hstop pr hpr hnotin
    have hmem : pr ∈ (scanOf st p).toTest := (hchar pr).mpr ⟨hpr, hmemnot _ hnotin⟩
    have hne : (scanOf st p).toTest.isEmpty = false := by
      rcases hh : (scanOf st p).toTest with _ | ⟨a, b⟩
      · rw [hh] at hmem; simp at hmem
      · simp
    rw [performHealthChecks_events_main o st p hstop hne]
    refine List.mem_append_left _ (List.mem_append_left _ (List.mem_append_right _ ?_))
    rw [phase1Of_events]
    exact List.mem_cons_of_mem _ (screenGo_socketEvents o p.now p.emitProgress _ pr hmem)

/-! ## Phase-1 screening (C1) -/

theorem cacheScanGo_toTest_sublist (u f : Bool) (c : List String) (cf : Option String)
    (em : Bool) : ∀ (l : List (Nat × TestResult)),
      (cacheScanGo u f c cf em l).toTest.Sublist l := by
  intro l
  induction l with
  | nil => simp [cacheScanGo]
  | cons hd rest ih =>
    obtain ⟨i, e⟩ := hd
    by_cases hskip : (u && !f && (u && c.contains e.uri)) = true
    · simp only [cacheScanGo, hskip, if_true]
      exact List.Sublist.cons _ ih
    · simp only [cacheScanGo, hskip, Bool.not_eq_true, if_neg, if_false]
      exact List.Sublist.cons₂ _ ih

theorem toTest_fst_nodup (st : HCState) (p : HCParams) :
    ((scanOf st p).toTest.map Prod.fst).Nodup := by
  have hsub : (scanOf st p).toTest.Sublist st.entries.enum :=
    cacheScanGo_toTest_sublist _ _ _ _ _ _
  exact List.Nodup.sublist (hsub.map Prod.fst) (List.nodup_enum_map_fst _)

theorem toTest_mem_enum (st : HCState) (p : HCParams) {pr : Nat × TestResult}
    (h : pr ∈ (scanOf st p).toTest) : pr ∈ st.entries.enum :=
  (cacheScanGo_toTest_sublist _ _ _ _ _ _).mem h

theorem toTest_fst_inj (st : HCState) (p : HCParams) {pr q : Nat × TestResult}
    (hpr : pr ∈ (scanOf st p).toTest) (hq : q ∈ (scanOf st p).toTest)
    (hfst : pr.1 = q.1) : pr = q :=
  List.inj_on_of_nodup_map (List.nodup_enum_map_fst _)
    (toTest_mem_enum st p hpr) (toTest_mem_enum st p hq) hfst

/-- C1: in Phase 1 — which runs whenever the cache hits alone have not
already met the early-stop target — every candidate receives a TCP connect
attempt with a 1.0 s timeout; the phase-1 semaphore capacity is the
constant 100, independent of the caller-supplied thread count; every
candidate whose connect fails ends up in the final entries marked `ERROR`
with the exact reason `Connection refused (Phase 1)`; and every Phase-2
functional probe belongs to a Phase-1 survivor. -/
theorem phase1Screen (o : ProbeOracle) (st : HCState) (p : HCParams)
    (hstop : stopReached p.stopOnSuccess (scanOf st p).success = false) :
    (∀ pr ∈ (scanOf st p).toTest,
      TEvent.socketAttempt pr.2.uri pr.2.host pr.2.port 1 ∈
        (performHealthChecks o st p).events) ∧
    (∀ cap, TEvent.semCreate 1 cap ∈ (performHealthChecks o st p).events → cap = 100) ∧
    (∀ pr ∈ (scanOf st p).toTest, o.socketOk pr.2.host pr.2.port = false →
      phase1FailEntry p.now pr.2 ∈ (performHealthChecks o st p).entries ∧
      (phase1FailEntry p.now pr.2).status = "ERROR" ∧
      (phase1FailEntry p.now pr.2).error = some "Connection refused (Phase 1)") ∧
    (∀ u t, TEvent.funcProbe u t ∈ (performHealthChecks o st p).events →
      ∃ pr ∈ (scanOf st p).toTest, u = pr.2.uri ∧
        o.socketOk pr.2.host pr.2.port = true) := by
  refine ⟨?_, ?_, ?_, ?_⟩
  · intro pr hpr
    have hne : (scanOf st p).toTest.isEmpty = false := by
      rcases hh : (scanOf st p).toTest with _ | ⟨a, b⟩
      · rw [hh] at hpr; simp at hpr
      · simp
    rw [performHealthChecks_events_main o st p hstop hne]
    refine List.mem_append_left _ (List.mem_append_left _ (List.mem_append_right _ ?_))
    rw [phase1Of_events]
    exact List.mem_cons_of_mem _ (screenGo_socketEvents o p.now p.emitProgress _ pr hpr)
  · intro cap hev
    by_cases hne : (scanOf st p).toTest.isEmpty = true
    · rw [performHealthChecks_events_noTests o st p hstop hne] at hev
      rcases List.mem_append.mp hev with hs | hs
      · obtain ⟨uu, huu⟩ := cacheScanGo_events_shape _ _ _ _ _ _ _ hs
        exact absurd huu (by simp)
      · rcases saveEvents_shape _ _ hs with h1 | h1 <;> exact absurd h1 (by simp)
    · rw [performHealthChecks_events_main o st p hstop
        (Bool.eq_false_iff.mpr hne)] at hev
      rcases List.mem_append.mp hev with hev3 | hs
      swap
      · rcases saveEvents_shape _ _ hs with h1 | h1 <;> exact absurd h1 (by simp)
      rcases List.mem_append.mp hev3 with hev2 | hs
      swap
      · by_cases honline : (phase1Of o st p).online.isEmpty = true
        · rw [if_pos honline] at hs
          simp at hs
        · rw [if_neg honline] at hs
          rcases List.mem_cons.mp hs with h1 | h1
          · exact absurd h1 (by simp)
          · rcases runGo_events_shape _ _ _ _ _ _ _ h1 with ⟨q, hq, hshape⟩ | ⟨uu, huu⟩
            · exact absurd hshape (by simp)
            · exact absurd huu (by simp)
      rcases List.mem_append.mp hev2 with hs | hs
      · obtain ⟨uu, huu⟩ := cacheScanGo_events_shape _ _ _ _ _ _ _ hs
        exact absurd huu (by simp)
      · rw [phase1Of_events] at hs
        rcases List.mem_cons.mp hs with h1 | h1
        · injection h1 with h2 h3
        · rcases screenGo_events_shape _ _ _ _ _ h1 with ⟨q, hq, hshape⟩ | ⟨uu, huu⟩
          · exact absurd hshape (by simp)
          · exact absurd huu (by simp)
  · intro pr hpr hfail
    have hne : (scanOf st p).toTest.isEmpty = false := by
      rcases hh : (scanOf st p).toTest with _ | ⟨a, b⟩
      · rw [hh] at hpr; simp at hpr
      · simp
    refine ⟨?_, rfl, rfl⟩
    rw [performHealthChecks_entries_main o st p hstop hne]
    have hfmem : (pr.1, phase1FailEntry p.now pr.2) ∈ (phase1Of o st p).upds := by
      rw [phase1Of_upds]
      exact screenGo_fail_mem o p.now p.emitProgress _ pr hpr hfail
    have hnotonline : ((phase1Of o st p).online.any (fun r => r.1 = pr.1)) = false := by
      by_cases hany : ((phase1Of o st p).online.any (fun r => r.1 = pr.1)) = true
      · exfalso
        obtain ⟨q, hq, hq2⟩ := List.any_eq_true.mp hany
        have hq3 : q.1 = pr.1 := by simpa using hq2
        have := screenGo_online_mem o p.now p.emitProgress _ q
          (phase1Of_online o st p ▸ hq)
        obtain ⟨hqToTest, hqOk⟩ := this
        have : q = pr := toTest_fst_inj st p hqToTest hpr hq3
        rw [this] at hqOk
        rw [hqOk] at hfail
        exact absurd hfail (by simp)
      · exact Bool.eq_false_iff.mpr hany
    have hfilterMem : (pr.1, phase1FailEntry p.now pr.2) ∈
        (phase1Of o st p).upds.filter
          (fun q => !((phase1Of o st p).online.any (fun r => r.1 = q.1))) := by
      refine List.mem_filter.mpr ⟨hfmem, ?_⟩
      simp [hnotonline]
    have hfilterNodup : (((phase1Of o st p).upds.filter
        (fun q => !((phase1Of o st p).online.any (fun r => r.1 = q.1)))).map
          Prod.fst).Nodup := by
      have hsub := (List.filter_sublist (l := (phase1Of o st p).upds)
        (p := fun q => !((phase1Of o st p).online.any (fun r => r.1 = q.1)))).map Prod.fst
      rw [phase1Of_upds, screenGo_upds_fst] at hsub
      exact List.Nodup.sublist hsub (toTest_fst_nodup st p)
    have hfindB : ((phase1Of o st p).upds.filter
        (fun q => !((phase1Of o st p).online.any (fun r => r.1 = q.1)))).find?
          (fun q => q.1 = pr.1) = some (pr.1, phase1FailEntry p.now pr.2) :=
      find?_fst_mem_nodup hfilterMem hfilterNodup
    have hfindA : (scanOf st p).upds.find? (fun q => q.1 = pr.1) = none := by
      apply find?_fst_none
      intro q hq heq
      obtain ⟨qq, hqq, hfsteq, hskip⟩ := cacheScanGo_upds_fst_mem _ _ _ _ _ _ q hq
      have hqqpr : qq = pr := by
        apply List.inj_on_of_nodup_map (List.nodup_enum_map_fst st.entries)
          hqq (toTest_mem_enum st p hpr)
        rw [← hfsteq, heq]
      have hprc := cacheScanGo_toTest_char st.useCache p.forceRefresh st.cacheUris
        p.countryFilter p.emitProgress st.entries.enum pr
      have hskipPr := ((hprc.mp) hpr).2
      rw [hqqpr] at hskip
      rw [hskip] at hskipPr
      exact absurd hskipPr (by simp)
    have hfind : (hcUpds o st p).find? (fun q => q.1 = pr.1) =
        some (pr.1, phase1FailEntry p.now pr.2) := by
      unfold hcUpds
      rw [List.find?_append, List.find?_append, List.find?_append, hfindA, hfindB]
      rfl
    have hget : st.entries.get? pr.1 = some pr.2 :=
      List.mem_enum_iff_get?.mp (toTest_mem_enum st p hpr)
    have hmerge : phase1FailEntry p.now pr.2 ∈ mergeByIdx st.entries (hcUpds o st p) :=
      mergeByIdx_mem hfind hget
    refine List.mem_map.mpr ⟨phase1FailEntry p.now pr.2, hmerge, ?_⟩
    by_cases hskipGeo : p.skipGeo
    · simp [hskipGeo]
    · simp only [hskipGeo, Bool.false_eq_true, if_neg, if_false]
      exact postLoadExitGeo_of_not_ok o st.findipToken _ (by simp [phase1FailEntry])
  · intro u t hev
    by_cases hne : (scanOf st p).toTest.isEmpty = true
    · rw [performHealthChecks_events_noTests o st p hstop hne] at hev
      rcases List.mem_append.mp hev with hs | hs
      · obtain ⟨uu, huu⟩ := cacheScanGo_events_shape _ _ _ _ _ _ _ hs
        exact absurd huu (by simp)
      · rcases saveEvents_shape _ _ hs with h1 | h1 <;> exact absurd h1 (by simp)
    · rw [performHealthChecks_events_main o st p hstop
        (Bool.eq_false_iff.mpr hne)] at hev
      rcases List.mem_append.mp hev with hev3 | hs
      swap
      · rcases saveEvents_shape _ _ hs with h1 | h1 <;> exact absurd h1 (by simp)
      rcases List.mem_append.mp hev3 with hev2 | hs
      swap
      · by_cases honline : (phase1Of o st p).online.isEmpty = true
        · rw [if_pos honline] at hs
          simp at hs
        · rw [if_neg honline] at hs
          rcases List.mem_cons.mp hs with h1 | h1
          · exact absurd h1 (by simp)
          · obtain ⟨pr, hpr, huri⟩ := runGo_probe_events _ _ _ _ _ _ _ _ h1
            obtain ⟨hprToTest, hprOk⟩ := screenGo_online_mem _ _ _ _ _
              (phase1Of_online o st p ▸ hpr)
            exact ⟨pr, hprToTest, huri, hprOk⟩
      rcases List.mem_append.mp hev2 with hs | hs
      · obtain ⟨uu, huu⟩ := cacheScanGo_events_shape _ _ _ _ _ _ _ hs
        exact absurd huu (by simp)
      · rw [phase1Of_events] at hs
        rcases List.mem_cons.mp hs with h1 | h1
        · exact absurd h1 (by simp)
        · rcases screenGo_events_shape _ _ _ _ _ h1 with ⟨q, hq, hshape⟩ | ⟨uu, huu⟩
          · exact absurd hshape (by simp)
          · exact absurd huu (by simp)

/-- C1 witness: in a concrete run with defaults (no early stop), the
uncached entry whose host refuses connects ends up `ERROR` with the exact
phase-1 reason. -/
theorem phase1Screen_witness :
    stopReached wHCParams.stopOnSuccess (scanOf wHCState wHCParams).success = false ∧
    (2, wEntryBad) ∈ (scanOf wHCState wHCParams).toTest ∧
    wHCOracle.socketOk wEntryBad.host wEntryBad.port = false ∧
    phase1FailEntry wHCParams.now wEntryBad ∈
      (performHealthChecks wHCOracle wHCState wHCParams).entries ∧
    (phase1FailEntry wHCParams.now wEntryBad).status = "ERROR" ∧
    (phase1FailEntry wHCParams.now wEntryBad).error =
      some "Connection refused (Phase 1)" := by
  have h := phase1Screen wHCOracle wHCState wHCParams rfl
  have h3 := h.2.2.1 (2, wEntryBad) (by decide) (by decide)
  exact ⟨rfl, by decide, by decide, h3.1, h3.2.1, h3.2.2⟩

/-- C10 witness: the concrete cached run — no socket attempt or functional
probe ever touches the cached URI, and each uncached entry is screened. -/
theorem cachedUrisSkipped_witness :
    wHCState.useCache = true ∧ wHCParams.forceRefresh = false ∧
    ((∀ u h port t,
        TEvent.socketAttempt u h port t ∈
          (performHealthChecks wHCOracle wHCState wHCParams).events →
        u ∉ wHCState.cacheUris) ∧
      (∀ u t,
        TEvent.funcProbe u t ∈
          (performHealthChecks wHCOracle wHCState wHCParams).events →
        u ∉ wHCState.cacheUris) ∧
      (stopReached wHCParams.stopOnSuccess (scanOf wHCState wHCParams).success = false →
        ∀ pr ∈ wHCState.entries.enum, pr.2.uri ∉ wHCState.cacheUris →
          TEvent.socketAttempt pr.2.uri pr.2.host pr.2.port 1 ∈
            (performHealthChecks wHCOracle wHCState wHCParams).events)) :=
  ⟨rfl, rfl, cachedUrisSkipped wHCOracle wHCState wHCParams rfl rfl⟩

/-! ## Phase-2 country filtering (C2) -/

/-- C2: with an active country filter, a functional result that comes back
`OK` but does not match the filter is re-tagged `FILTERED`, its error
message contains the filter string; the match consults the exit geo first
and falls back to the server geo; and the early-stop success counter counts
exactly the results whose final status is `OK` — `FILTERED` results do not
contribute. -/
theorem phase2FilterRetag (o : ProbeOracle) (p : HCParams) (e : TestResult)
    (f : String) (hcf : p.countryFilter = some f) (hfne : f.isEmpty = false)
    (hok : (testOutboundFunctionalOnly o e p.timeout p.skipGeo p.now).1.status = "OK")
    (hmm : matchesCountry (testOutboundFunctionalOnly o e p.timeout p.skipGeo p.now).1
      p.countryFilter = false) :
    (phase2Entry o p e).status = "FILTERED" ∧
    (phase2Entry o p e).error = some (filterRetagMsg f) ∧
    (∃ pre post, (filterRetagMsg f).data = pre ++ f.data ++ post) ∧
    (∀ entry : TestResult, matchesCountry entry (some f) =
      match entry.exitGeo <|> entry.serverGeo with
      | none => false
      | some g => checkCountryMatch g f) ∧
    (∀ (l : List (Nat × TestResult)) (s t : Nat) (c : Bool),
      (runFunctionalGo o p l s t c).success =
        s + ((runFunctionalGo o p l s t c).processed.filter
          (fun q => q.2.status = "OK")).length) := by
  have hcond : ((testOutboundFunctionalOnly o e p.timeout p.skipGeo p.now).1.status = "OK"
      && cfActive p.countryFilter
      && !matchesCountry (testOutboundFunctionalOnly o e p.timeout p.skipGeo p.now).1
        p.countryFilter) = true := by
    rw [hok, hmm, hcf]
    simp [cfActive, hfne]
  refine ⟨?_, ?_, ?_, ?_, ?_⟩
  · simp only [phase2Entry, hcond]
    simp
  · simp only [phase2Entry, hcond]
    simp [hcf]
  · exact ⟨("Does not match filter " ++ sq).data, sq.data, by simp [filterRetagMsg]⟩
  · intro entry
    simp only [matchesCountry]
    rw [if_neg]
    simp [hfne]
  · intro l s t c
    exact runGo_success_count o p l s t c

/-- C2 witness: under the `US` filter, a concrete probe that succeeds with
an exit IP of unknown country is re-tagged `FILTERED` with the filter
string in the reason. -/
theorem phase2FilterRetag_witness :
    wP2Params.countryFilter = some "US" ∧
    (testOutboundFunctionalOnly wHCOracle wEntryGood wP2Params.timeout
      wP2Params.skipGeo wP2Params.now).1.status = "OK" ∧
    matchesCountry (testOutboundFunctionalOnly wHCOracle wEntryGood wP2Params.timeout
      wP2Params.skipGeo wP2Params.now).1 wP2Params.countryFilter = false ∧
    (phase2Entry wHCOracle wP2Params wEntryGood).status = "FILTERED" ∧
    (phase2Entry wHCOracle wP2Params wEntryGood).error =
      some (filterRetagMsg "US") := by
  have h := phase2FilterRetag wHCOracle wP2Params wEntryGood "US" rfl rfl
    (by decide) (by decide)
  exact ⟨rfl, by decide, by decide, h.1, h.2.1⟩

end NyxProxy
